import Mathlib

/-!
Verification of the Sudoku solver repository.

The core under verification is `sudoku_final_solution.py`: a depth-first
backtracking search over a 9x9 grid with incremental bookkeeping of the
digits already used in each row, column and 3x3 box, plus a stack of the
still-empty cells.  Python's mutable `set`s are modelled as duplicate-free
lists (`sadd` inserts only if absent, matching `set.add`; `List.erase`
matches `set.discard` on such lists), the `defaultdict(set)` maps keyed by
row / column / box are modelled as lists of (key, value) pairs (a missing
key behaves as the empty set, exactly as `defaultdict` does), and the
in-place mutation of the numpy array is modelled by explicit state passing:
`depth_first_search` returns both Python's return value (`Option` state)
and the state as the mutations left it.

The recursion of `depth_first_search` is exposed through an explicit
recursion-depth budget `fuel` (the Python recursion has no such parameter;
the budget makes the recursion structural).  The entry point runs it with
budget `empty_cells.length`, and the development proves that this budget is
never exhausted, i.e. the Python recursion depth is bounded by the number
of empty cells.

`sudoku_approach1.py` is embedded separately (namespace `Approach1`) for
the claims that cite its `SudokuState`.
-/

set_option maxRecDepth 40000

namespace SudokuSolver

/-- The 9x9 grid, as the Python list-of-lists / numpy array: rows of integers. -/
abbrev Grid := List (List Int)

/-- Read grid cell `(r, c)` (Python `sudoku[r][c]`); out-of-range reads default to `0`. -/
def cellVal (g : Grid) (r c : Nat) : Int := (g.getD r []).getD c 0

/-- Write value `v` into grid cell `(r, c)` (Python `sudoku[r][c] = v`). -/
def setCell (g : Grid) (r c : Nat) (v : Int) : Grid := g.set r ((g.getD r []).set c v)

/-- Python `set.add`: insert an element if absent (lists model the sets). -/
def sadd {α : Type} [DecidableEq α] (s : List α) (x : α) : List α :=
  if x ∈ s then s else x :: s

/-- Models `sub_grid_no = (row // 3, col // 3)` (lines 36 and 63 of `sudoku_final_solution.py`). -/
def sub_grid_no (row col : Nat) : Nat × Nat := (row / 3, col / 3)

/-- The digits `1..9` tried by the loop `for digit in range(1, 10)` (line 65). -/
def digits : List Int := [1, 2, 3, 4, 5, 6, 7, 8, 9]

/-- The bookkeeping state of `sudoku_solver` in `sudoku_final_solution.py`:
the grid together with the module-level `row_to_seen_vals`,
`col_to_seen_vals`, `grid_to_cells` (line 92) and `empty_cells` (line 93). -/
structure SolverState where
  grid : Grid
  row_to_seen_vals : List (Nat × Int)
  col_to_seen_vals : List (Nat × Int)
  grid_to_cells : List ((Nat × Nat) × Int)
  empty_cells : List (Nat × Nat)
deriving DecidableEq

/-- The legality test of lines 67-68: the digit is in none of
`row_to_seen_vals[row]`, `col_to_seen_vals[col]`, `grid_to_cells[sub_grid_no]`. -/
def digit_is_legal (st : SolverState) (row col : Nat) (digit : Int) : Bool :=
  decide ((row, digit) ∉ st.row_to_seen_vals) &&
    decide ((col, digit) ∉ st.col_to_seen_vals) &&
    decide ((sub_grid_no row col, digit) ∉ st.grid_to_cells)

/-- The placement block, lines 70-76: write the digit into the grid, pop the
last empty cell, and add the digit to the three used-sets. -/
def place (st : SolverState) (row col : Nat) (digit : Int) : SolverState :=
  { grid := setCell st.grid row col digit
    row_to_seen_vals := sadd st.row_to_seen_vals (row, digit)
    col_to_seen_vals := sadd st.col_to_seen_vals (col, digit)
    grid_to_cells := sadd st.grid_to_cells (sub_grid_no row col, digit)
    empty_cells := st.empty_cells.dropLast }

/-- The backtracking block, lines 82-87: zero the grid cell, push the cell
back on `empty_cells`, and discard the digit from the three used-sets. -/
def undo (st : SolverState) (row col : Nat) (digit : Int) : SolverState :=
  { grid := setCell st.grid row col 0
    row_to_seen_vals := st.row_to_seen_vals.erase (row, digit)
    col_to_seen_vals := st.col_to_seen_vals.erase (col, digit)
    grid_to_cells := st.grid_to_cells.erase (sub_grid_no row col, digit)
    empty_cells := st.empty_cells ++ [(row, col)] }

/-- One iteration of the digit loop of lines 65-89.  A first component
`some g` in the accumulator means an earlier digit already succeeded (the
Python loop has returned); otherwise the digit is checked for legality,
placed, the search recurses through `rec`, and a failed recursion is undone. -/
def dfs_step (rec : SolverState → Option SolverState × SolverState) (row col : Nat)
    (acc : Option SolverState × SolverState) (digit : Int) :
    Option SolverState × SolverState :=
  match acc with
  | (some g, stg) => (some g, stg)
  | (none, st) =>
    if digit_is_legal st row col digit then
      match rec (place st row col digit) with
      | (some g, stg) => (some g, stg)
      | (none, st2) => (none, undo st2 row col digit)
    else (none, st)

/-- Models `depth_first_search` of lines 50-90, with an explicit recursion-depth
budget `fuel`.  The pair returned is (Python return value, state as the
in-place mutations left it).  The `fuel = 0` branch with a nonempty
`empty_cells` is unreachable from the solver entry (proved below): the entry
supplies `empty_cells.length`, and each recursive call removes one cell. -/
def dfsF (fuel : Nat) (st : SolverState) : Option SolverState × SolverState :=
  match st.empty_cells.getLast? with
  | none => (some st, st)
  | some (row, col) =>
    match fuel with
    | 0 => (none, st)
    | fuel' + 1 => digits.foldl (dfs_step (dfsF fuel') row col) (none, st)

/-- Models `depth_first_search` as called on line 46: the recursion-depth budget is
the number of empty cells. -/
def depth_first_search (st : SolverState) : Option SolverState × SolverState :=
  dfsF st.empty_cells.length st

/-- The row-major list of the 81 cell coordinates scanned by the loops of
lines 29-30. -/
def allCells : List (Nat × Nat) :=
  (List.range 9).flatMap fun r => (List.range 9).map fun c => (r, c)

/-- Models `invalid_sudoku = [[-1] * 9] * 9` (line 27). -/
def invalid_sudoku : Grid := List.replicate 9 (List.replicate 9 (-1))

/-- The state at line 92-93: empty used-sets and no tracked empty cells. -/
def mkInit (sudoku : Grid) : SolverState := ⟨sudoku, [], [], [], []⟩

/-- The population-and-validation loop of `solve_sudoku`, lines 29-44:
scan the cells row-major; a zero cell is appended to `empty_cells`; a
non-zero cell is checked against the three used-sets (`none` models the
`return invalid_sudoku` of line 40) and then added to them. -/
def init_scan : List (Nat × Nat) → SolverState → Option SolverState
  | [], st => some st
  | (row, col) :: rest, st =>
    let val := cellVal st.grid row col
    if val = 0 then
      init_scan rest { st with empty_cells := st.empty_cells ++ [(row, col)] }
    else if (row, val) ∈ st.row_to_seen_vals ∨ (col, val) ∈ st.col_to_seen_vals ∨
        (sub_grid_no row col, val) ∈ st.grid_to_cells then
      none
    else
      init_scan rest { st with
        col_to_seen_vals := sadd st.col_to_seen_vals (col, val)
        row_to_seen_vals := sadd st.row_to_seen_vals (row, val)
        grid_to_cells := sadd st.grid_to_cells (sub_grid_no row col, val) }

/-- Models `solve_sudoku` (lines 17-48) together with the final contents of the
caller's array: the first component is the Python return value, the second
is the input array as the in-place mutations left it. -/
def solve_sudoku (sudoku : Grid) : Grid × Grid :=
  match init_scan allCells (mkInit sudoku) with
  | none => (invalid_sudoku, sudoku)
  | some st =>
    match depth_first_search st with
    | (some goal_state, stf) => (goal_state.grid, stf.grid)
    | (none, stf) => (invalid_sudoku, stf.grid)

/-- Models `sudoku_solver` (line 4): the value returned to the caller. -/
def sudoku_solver (sudoku : Grid) : Grid := (solve_sudoku sudoku).1

/-- The cell selection of line 62, `row, col = empty_cells[-1]` (named
`choose_cell` in `sudoku_approach1.py`, line 108, with the same body). -/
def choose_cell (st : SolverState) (h : st.empty_cells ≠ []) : Nat × Nat :=
  st.empty_cells.getLast h

/-! ## Specification predicates -/

/-- The grid is 9 rows of 9 entries. -/
def gridShape (g : Grid) : Prop := g.length = 9 ∧ ∀ row ∈ g, row.length = 9

/-- A well-formed input: 9x9, every entry an integer in `[0, 9]`. -/
def GridWF (g : Grid) : Prop :=
  gridShape g ∧ ∀ row ∈ g, ∀ v ∈ row, 0 ≤ v ∧ v ≤ 9

/-- Grid `b` agrees with `a` on every cell that is non-zero (filled) in `a`. -/
def AgreesG (a b : Grid) : Prop :=
  ∀ r < 9, ∀ c < 9, cellVal a r c ≠ 0 → cellVal b r c = cellVal a r c

/-- The nine values of row `r`. -/
def rowVals (g : Grid) (r : Nat) : List Int :=
  (List.range 9).map fun c => cellVal g r c

/-- The nine values of column `c`. -/
def colVals (g : Grid) (c : Nat) : List Int :=
  (List.range 9).map fun r => cellVal g r c

/-- The nine cells of the 3x3 box with box coordinates `(br, bc)`. -/
def boxCells (br bc : Nat) : List (Nat × Nat) :=
  (List.range 3).flatMap fun i => (List.range 3).map fun j => (3 * br + i, 3 * bc + j)

/-- The nine values of the 3x3 box with box coordinates `(br, bc)`. -/
def boxVals (g : Grid) (br bc : Nat) : List Int :=
  (boxCells br bc).map fun rc => cellVal g rc.1 rc.2

/-- A fully solved, valid grid: 9x9 and every row, column and box is a
permutation of the digits `1..9` (each digit exactly once). -/
def ValidSolvedGrid (g : Grid) : Prop :=
  gridShape g ∧ (∀ r < 9, (rowVals g r).Perm digits) ∧
    (∀ c < 9, (colVals g c).Perm digits) ∧
    ∀ br < 3, ∀ bc < 3, (boxVals g br bc).Perm digits

/-- Some non-zero value occurs at two distinct cells of the same row, the
same column, or the same 3x3 box. -/
def HasDuplicateClue (g : Grid) : Prop :=
  ∃ rc1 ∈ allCells, ∃ rc2 ∈ allCells, rc1 ≠ rc2 ∧
    cellVal g rc1.1 rc1.2 ≠ 0 ∧ cellVal g rc1.1 rc1.2 = cellVal g rc2.1 rc2.2 ∧
    (rc1.1 = rc2.1 ∨ rc1.2 = rc2.2 ∨ sub_grid_no rc1.1 rc1.2 = sub_grid_no rc2.1 rc2.2)

/-- Invariant I2 of the spec: `empty_cells` lists exactly the cells whose
grid value is `0`, each once. -/
def I2 (st : SolverState) : Prop :=
  st.empty_cells.Nodup ∧
    (∀ rc ∈ st.empty_cells, rc.1 < 9 ∧ rc.2 < 9 ∧ cellVal st.grid rc.1 rc.2 = 0) ∧
    ∀ r < 9, ∀ c < 9, cellVal st.grid r c = 0 → (r, c) ∈ st.empty_cells

/-- The full bookkeeping invariant maintained by the search: shape and value
bounds, I2 for `empty_cells`, and for each of the three used-set maps the
exact correspondence with the non-zero grid cells (membership in both
directions) together with the no-duplicate property of the grid itself. -/
structure Inv (st : SolverState) : Prop where
  shape : gridShape st.grid
  vals : ∀ r < 9, ∀ c < 9, cellVal st.grid r c = 0 ∨ cellVal st.grid r c ∈ digits
  emptyNodup : st.empty_cells.Nodup
  emptyMem : ∀ rc ∈ st.empty_cells, rc.1 < 9 ∧ rc.2 < 9 ∧ cellVal st.grid rc.1 rc.2 = 0
  emptyFull : ∀ r < 9, ∀ c < 9, cellVal st.grid r c = 0 → (r, c) ∈ st.empty_cells
  rowMem : ∀ p ∈ st.row_to_seen_vals,
    p.1 < 9 ∧ p.2 ≠ 0 ∧ ∃ c < 9, cellVal st.grid p.1 c = p.2
  rowFull : ∀ r < 9, ∀ c < 9, cellVal st.grid r c ≠ 0 →
    (r, cellVal st.grid r c) ∈ st.row_to_seen_vals
  rowInj : ∀ r < 9, ∀ c1 < 9, ∀ c2 < 9, cellVal st.grid r c1 ≠ 0 →
    cellVal st.grid r c1 = cellVal st.grid r c2 → c1 = c2
  colMem : ∀ p ∈ st.col_to_seen_vals,
    p.1 < 9 ∧ p.2 ≠ 0 ∧ ∃ r < 9, cellVal st.grid r p.1 = p.2
  colFull : ∀ r < 9, ∀ c < 9, cellVal st.grid r c ≠ 0 →
    (c, cellVal st.grid r c) ∈ st.col_to_seen_vals
  colInj : ∀ c < 9, ∀ r1 < 9, ∀ r2 < 9, cellVal st.grid r1 c ≠ 0 →
    cellVal st.grid r1 c = cellVal st.grid r2 c → r1 = r2
  boxMem : ∀ p ∈ st.grid_to_cells,
    p.2 ≠ 0 ∧ ∃ r < 9, ∃ c < 9, sub_grid_no r c = p.1 ∧ cellVal st.grid r c = p.2
  boxFull : ∀ r < 9, ∀ c < 9, cellVal st.grid r c ≠ 0 →
    (sub_grid_no r c, cellVal st.grid r c) ∈ st.grid_to_cells
  boxInj : ∀ r1 < 9, ∀ c1 < 9, ∀ r2 < 9, ∀ c2 < 9,
    sub_grid_no r1 c1 = sub_grid_no r2 c2 → cellVal st.grid r1 c1 ≠ 0 →
    cellVal st.grid r1 c1 = cellVal st.grid r2 c2 → (r1, c1) = (r2, c2)

/-- The invariant of the population loop after the cells in `done` have been
scanned: the grid is untouched, `empty_cells` is exactly the zero-valued
prefix of `done` in order, the used-sets reflect exactly the non-zero cells
of `done`, and no two scanned cells conflict. -/
structure ScanInv (g : Grid) (done : List (Nat × Nat)) (st : SolverState) : Prop where
  hgrid : st.grid = g
  hemp : st.empty_cells = done.filter fun rc => decide (cellVal g rc.1 rc.2 = 0)
  hrow : ∀ p, p ∈ st.row_to_seen_vals ↔
    ∃ c, (p.1, c) ∈ done ∧ cellVal g p.1 c = p.2 ∧ p.2 ≠ 0
  hcol : ∀ p, p ∈ st.col_to_seen_vals ↔
    ∃ r, (r, p.1) ∈ done ∧ cellVal g r p.1 = p.2 ∧ p.2 ≠ 0
  hbox : ∀ p, p ∈ st.grid_to_cells ↔
    ∃ rc, rc ∈ done ∧ sub_grid_no rc.1 rc.2 = p.1 ∧ cellVal g rc.1 rc.2 = p.2 ∧ p.2 ≠ 0
  hrowInj : ∀ rc1 ∈ done, ∀ rc2 ∈ done, rc1.1 = rc2.1 →
    cellVal g rc1.1 rc1.2 ≠ 0 → cellVal g rc1.1 rc1.2 = cellVal g rc2.1 rc2.2 → rc1 = rc2
  hcolInj : ∀ rc1 ∈ done, ∀ rc2 ∈ done, rc1.2 = rc2.2 →
    cellVal g rc1.1 rc1.2 ≠ 0 → cellVal g rc1.1 rc1.2 = cellVal g rc2.1 rc2.2 → rc1 = rc2
  hboxInj : ∀ rc1 ∈ done, ∀ rc2 ∈ done, sub_grid_no rc1.1 rc1.2 = sub_grid_no rc2.1 rc2.2 →
    cellVal g rc1.1 rc1.2 ≠ 0 → cellVal g rc1.1 rc1.2 = cellVal g rc2.1 rc2.2 → rc1 = rc2

/-- State `b`'s grid agrees with state `a`'s on every cell filled in `a`'s grid. -/
def Preserves (a b : SolverState) : Prop := AgreesG a.grid b.grid

/-! ## Basic lemmas: digits, cells, grid reads and writes, set operations -/

lemma mem_digits {v : Int} : v ∈ digits ↔ 1 ≤ v ∧ v ≤ 9 := by
  simp only [digits, List.mem_cons, List.not_mem_nil, or_false]
  omega

lemma digits_nodup : digits.Nodup := by decide

lemma mem_allCells {r c : Nat} : (r, c) ∈ allCells ↔ r < 9 ∧ c < 9 := by
  simp only [allCells, List.mem_flatMap, List.mem_map, List.mem_range, Prod.mk.injEq]
  constructor
  · rintro ⟨a, ha, b, hb, rfl, rfl⟩
    exact ⟨ha, hb⟩
  · rintro ⟨h1, h2⟩
    exact ⟨r, h1, c, h2, rfl, rfl⟩

lemma allCells_nodup : allCells.Nodup := by decide

lemma getD_set_self {α : Type} {l : List α} {i : Nat} {v d : α} (h : i < l.length) :
    (l.set i v).getD i d = v := by
  simp [List.getD_eq_getElem?_getD, List.getElem?_set_self (by simpa using h)]

lemma getD_set_ne {α : Type} {l : List α} {i j : Nat} {v d : α} (h : i ≠ j) :
    (l.set i v).getD j d = l.getD j d := by
  simp [List.getD_eq_getElem?_getD, List.getElem?_set_ne h]

lemma set_getD_self {α : Type} {l : List α} {i : Nat} {d : α} :
    l.set i (l.getD i d) = l := by
  induction l generalizing i with
  | nil => rfl
  | cons a t ih =>
    cases i with
    | zero => rfl
    | succ n => simpa [List.set] using ih

lemma getD_row_mem {g : Grid} (hs : gridShape g) {r : Nat} (hr : r < 9) :
    g.getD r [] ∈ g := by
  have hlen : r < g.length := by rw [hs.1]; exact hr
  rw [List.getD_eq_getElem?_getD, List.getElem?_eq_getElem hlen]
  exact List.getElem_mem hlen

lemma row_length {g : Grid} (hs : gridShape g) {r : Nat} (hr : r < 9) :
    (g.getD r []).length = 9 :=
  hs.2 _ (getD_row_mem hs hr)

lemma cellVal_setCell_self {g : Grid} {r c : Nat} {v : Int}
    (hs : gridShape g) (hr : r < 9) (hc : c < 9) :
    cellVal (setCell g r c v) r c = v := by
  have h1 : r < g.length := by rw [hs.1]; exact hr
  have h2 : c < (g.getD r []).length := by rw [row_length hs hr]; exact hc
  unfold cellVal setCell
  rw [getD_set_self h1]
  exact getD_set_self h2

lemma cellVal_setCell_ne {g : Grid} {r c r' c' : Nat} {v : Int}
    (h : (r', c') ≠ (r, c)) :
    cellVal (setCell g r c v) r' c' = cellVal g r' c' := by
  unfold cellVal setCell
  by_cases hrr : r' = r
  · subst hrr
    have hcc : c ≠ c' := by
      intro hh
      exact h (by rw [hh])
    by_cases hlen : r' < g.length
    · rw [getD_set_self hlen, getD_set_ne hcc]
    · rw [List.set_eq_of_length_le (Nat.le_of_not_lt hlen)]
  · rw [getD_set_ne fun hh => hrr hh.symm]

lemma gridShape_setCell {g : Grid} (hs : gridShape g) {r : Nat} (hr : r < 9)
    (c : Nat) (v : Int) : gridShape (setCell g r c v) := by
  refine ⟨by rw [setCell, List.length_set]; exact hs.1, ?_⟩
  intro row hrow
  rcases List.mem_or_eq_of_mem_set hrow with h | h
  · exact hs.2 _ h
  · subst h
    rw [List.length_set]
    exact row_length hs hr

lemma setCell_setCell {g : Grid} {r c : Nat} {v w : Int} :
    setCell (setCell g r c v) r c w = setCell g r c w := by
  unfold setCell
  by_cases hlen : r < g.length
  · rw [getD_set_self hlen, List.set_set, List.set_set]
  · rw [List.set_eq_of_length_le (Nat.le_of_not_lt hlen)]

lemma setCell_cancel {g : Grid} {r c : Nat} (h : cellVal g r c = 0) :
    setCell g r c 0 = g := by
  have h2 : (g.getD r []).set c 0 = g.getD r [] := by
    have h3 := @set_getD_self Int (g.getD r []) c 0
    rwa [show (g.getD r []).getD c 0 = 0 from h] at h3
  unfold setCell
  rw [h2]
  exact set_getD_self

lemma mem_sadd {α : Type} [DecidableEq α] {s : List α} {x y : α} :
    y ∈ sadd s x ↔ y = x ∨ y ∈ s := by
  unfold sadd
  split
  · constructor
    · exact Or.inr
    · rintro (rfl | hy)
      · assumption
      · assumption
  · simp [List.mem_cons]

lemma sadd_erase {α : Type} [DecidableEq α] [BEq α] [LawfulBEq α]
    {s : List α} {x : α} (h : x ∉ s) : (sadd s x).erase x = s := by
  unfold sadd
  rw [if_neg h, List.erase_cons_head]

lemma digit_is_legal_iff {st : SolverState} {row col : Nat} {d : Int} :
    digit_is_legal st row col d = true ↔
      (row, d) ∉ st.row_to_seen_vals ∧ (col, d) ∉ st.col_to_seen_vals ∧
        (sub_grid_no row col, d) ∉ st.grid_to_cells := by
  simp [digit_is_legal, and_assoc]

/-! ## Lemmas about the empty-cell stack -/

lemma dropLast_append_last {l : List (Nat × Nat)} {a : Nat × Nat}
    (h : l.getLast? = some a) : l.dropLast ++ [a] = l :=
  List.dropLast_append_getLast? a h

lemma not_mem_dropLast_of_nodup {l : List (Nat × Nat)} {a : Nat × Nat}
    (hn : l.Nodup) (h : l.getLast? = some a) : a ∉ l.dropLast := by
  intro hmem
  have heq := dropLast_append_last h
  rw [← heq] at hn
  rcases List.nodup_append.1 hn with ⟨-, -, hdisj⟩
  exact hdisj hmem (List.mem_singleton_self a)

lemma mem_dropLast_iff {l : List (Nat × Nat)} {a x : Nat × Nat}
    (hn : l.Nodup) (h : l.getLast? = some a) :
    x ∈ l.dropLast ↔ x ∈ l ∧ x ≠ a := by
  constructor
  · intro hx
    refine ⟨(List.dropLast_sublist l).subset hx, ?_⟩
    rintro rfl
    exact not_mem_dropLast_of_nodup hn h hx
  · rintro ⟨hx, hne⟩
    rw [← dropLast_append_last h] at hx
    rcases List.mem_append.1 hx with h1 | h1
    · exact h1
    · rw [List.mem_singleton] at h1
      exact absurd h1 hne

lemma length_pos_of_getLast? {l : List (Nat × Nat)} {a : Nat × Nat}
    (h : l.getLast? = some a) : 0 < l.length := by
  have hne : l ≠ [] := by
    intro hh
    rw [hh] at h
    simp at h
  exact List.length_pos.2 hne

lemma length_dropLast_succ {l : List (Nat × Nat)} {a : Nat × Nat}
    (h : l.getLast? = some a) : l.dropLast.length + 1 = l.length := by
  have := length_pos_of_getLast? h
  rw [List.length_dropLast]
  omega

/-! ## Place / undo: exact restoration and invariant preservation -/

/-- Undoing a placement at the cell on top of the empty-cell stack restores
the state exactly, provided the cell was empty and the digit was legal. -/
lemma undo_place {st : SolverState} {row col : Nat} {d : Int}
    (hlast : st.empty_cells.getLast? = some (row, col))
    (hcell : cellVal st.grid row col = 0)
    (hleg : digit_is_legal st row col d = true) :
    undo (place st row col d) row col d = st := by
  obtain ⟨h1, h2, h3⟩ := digit_is_legal_iff.mp hleg
  cases st with
  | mk g rs cs bs ec =>
    simp only [place, undo, SolverState.mk.injEq]
    refine ⟨?_, ?_, ?_, ?_, ?_⟩
    · rw [setCell_setCell]
      exact setCell_cancel hcell
    · exact sadd_erase h1
    · exact sadd_erase h2
    · exact sadd_erase h3
    · exact dropLast_append_last hlast

/-- A legal placement at the cell on top of the empty-cell stack preserves
the full bookkeeping invariant. -/
lemma inv_place {st : SolverState} {row col : Nat} {d : Int}
    (inv : Inv st)
    (hlast : st.empty_cells.getLast? = some (row, col))
    (hd : d ∈ digits)
    (hleg : digit_is_legal st row col d = true) :
    Inv (place st row col d) := by
  obtain ⟨hl1, hl2, hl3⟩ := digit_is_legal_iff.mp hleg
  obtain ⟨hr9, hc9, hpiv⟩ := inv.emptyMem _ (List.mem_of_getLast?_eq_some hlast)
  have hd0 : d ≠ 0 := by
    have := mem_digits.mp hd
    omega
  have cvs : cellVal (setCell st.grid row col d) row col = d :=
    cellVal_setCell_self inv.shape hr9 hc9
  have cvn : ∀ {r' c' : Nat}, (r', c') ≠ (row, col) →
      cellVal (setCell st.grid row col d) r' c' = cellVal st.grid r' c' :=
    fun h => cellVal_setCell_ne h
  have hShape : gridShape (setCell st.grid row col d) :=
    gridShape_setCell inv.shape hr9 _ _
  have hVals : ∀ r < 9, ∀ c < 9, cellVal (setCell st.grid row col d) r c = 0 ∨
      cellVal (setCell st.grid row col d) r c ∈ digits := by
    intro r hr c hc
    by_cases h : (r, c) = (row, col)
    · rw [Prod.mk.injEq] at h
      obtain ⟨rfl, rfl⟩ := h
      rw [cvs]
      exact Or.inr hd
    · rw [cvn h]
      exact inv.vals r hr c hc
  have hNodup : st.empty_cells.dropLast.Nodup :=
    List.Nodup.sublist (List.dropLast_sublist _) inv.emptyNodup
  have hEM : ∀ rc ∈ st.empty_cells.dropLast,
      rc.1 < 9 ∧ rc.2 < 9 ∧ cellVal (setCell st.grid row col d) rc.1 rc.2 = 0 := by
    intro rc hrc
    obtain ⟨a, b⟩ := rc
    obtain ⟨hmem, hne⟩ := (mem_dropLast_iff inv.emptyNodup hlast).mp hrc
    obtain ⟨h1, h2, h3⟩ := inv.emptyMem _ hmem
    exact ⟨h1, h2, by rw [cvn hne]; exact h3⟩
  have hEF : ∀ r < 9, ∀ c < 9, cellVal (setCell st.grid row col d) r c = 0 →
      (r, c) ∈ st.empty_cells.dropLast := by
    intro r hr c hc hval
    have hne : (r, c) ≠ (row, col) := by
      intro hh
      rw [Prod.mk.injEq] at hh
      obtain ⟨rfl, rfl⟩ := hh
      rw [cvs] at hval
      exact hd0 hval
    rw [cvn hne] at hval
    exact (mem_dropLast_iff inv.emptyNodup hlast).mpr
      ⟨inv.emptyFull r hr c hc hval, hne⟩
  have hRM : ∀ p ∈ sadd st.row_to_seen_vals (row, d),
      p.1 < 9 ∧ p.2 ≠ 0 ∧ ∃ c < 9, cellVal (setCell st.grid row col d) p.1 c = p.2 := by
    intro p hp
    rcases mem_sadd.mp hp with rfl | hp'
    · exact ⟨hr9, hd0, col, hc9, cvs⟩
    · obtain ⟨h1, h2, c', hc', hval⟩ := inv.rowMem _ hp'
      refine ⟨h1, h2, c', hc', ?_⟩
      have hne : (p.1, c') ≠ (row, col) := by
        intro hh
        rw [Prod.mk.injEq] at hh
        obtain ⟨he1, he2⟩ := hh
        rw [he1, he2, hpiv] at hval
        exact h2 hval.symm
      rw [cvn hne]
      exact hval
  have hRF : ∀ r < 9, ∀ c < 9, cellVal (setCell st.grid row col d) r c ≠ 0 →
      (r, cellVal (setCell st.grid row col d) r c) ∈ sadd st.row_to_seen_vals (row, d) := by
    intro r hr c hc hval
    by_cases h : (r, c) = (row, col)
    · rw [Prod.mk.injEq] at h
      obtain ⟨rfl, rfl⟩ := h
      rw [cvs]
      exact mem_sadd.mpr (Or.inl rfl)
    · rw [cvn h] at hval ⊢
      exact mem_sadd.mpr (Or.inr (inv.rowFull r hr c hc hval))
  have hRI : ∀ r < 9, ∀ c1 < 9, ∀ c2 < 9, cellVal (setCell st.grid row col d) r c1 ≠ 0 →
      cellVal (setCell st.grid row col d) r c1 = cellVal (setCell st.grid row col d) r c2 →
      c1 = c2 := by
    intro r hr c1 hc1 c2 hc2 hval1 heq
    by_cases h1 : (r, c1) = (row, col)
    · rw [Prod.mk.injEq] at h1
      obtain ⟨rfl, rfl⟩ := h1
      by_cases h2 : (r, c2) = (r, c1)
      · rw [Prod.mk.injEq] at h2
        exact h2.2.symm
      · rw [cvs] at heq
        rw [cvn h2] at heq
        have hmem := inv.rowFull r hr c2 hc2 (by rw [← heq]; exact hd0)
        rw [← heq] at hmem
        exact absurd hmem hl1
    · rw [cvn h1] at hval1 heq
      by_cases h2 : (r, c2) = (row, col)
      · rw [Prod.mk.injEq] at h2
        obtain ⟨rfl, rfl⟩ := h2
        rw [cvs] at heq
        have hmem := inv.rowFull r hr c1 hc1 hval1
        rw [heq] at hmem
        exact absurd hmem hl1
      · rw [cvn h2] at heq
        exact inv.rowInj r hr c1 hc1 c2 hc2 hval1 heq
  have hCM : ∀ p ∈ sadd st.col_to_seen_vals (col, d),
      p.1 < 9 ∧ p.2 ≠ 0 ∧ ∃ r < 9, cellVal (setCell st.grid row col d) r p.1 = p.2 := by
    intro p hp
    rcases mem_sadd.mp hp with rfl | hp'
    · exact ⟨hc9, hd0, row, hr9, cvs⟩
    · obtain ⟨h1, h2, r', hr', hval⟩ := inv.colMem _ hp'
      refine ⟨h1, h2, r', hr', ?_⟩
      have hne : (r', p.1) ≠ (row, col) := by
        intro hh
        rw [Prod.mk.injEq] at hh
        obtain ⟨he1, he2⟩ := hh
        rw [he1, he2, hpiv] at hval
        exact h2 hval.symm
      rw [cvn hne]
      exact hval
  have hCF : ∀ r < 9, ∀ c < 9, cellVal (setCell st.grid row col d) r c ≠ 0 →
      (c, cellVal (setCell st.grid row col d) r c) ∈ sadd st.col_to_seen_vals (col, d) := by
    intro r hr c hc hval
    by_cases h : (r, c) = (row, col)
    · rw [Prod.mk.injEq] at h
      obtain ⟨rfl, rfl⟩ := h
      rw [cvs]
      exact mem_sadd.mpr (Or.inl rfl)
    · rw [cvn h] at hval ⊢
      exact mem_sadd.mpr (Or.inr (inv.colFull r hr c hc hval))
  have hCI : ∀ c < 9, ∀ r1 < 9, ∀ r2 < 9, cellVal (setCell st.grid row col d) r1 c ≠ 0 →
      cellVal (setCell st.grid row col d) r1 c = cellVal (setCell st.grid row col d) r2 c →
      r1 = r2 := by
    intro c hc r1 hr1 r2 hr2 hval1 heq
    by_cases h1 : (r1, c) = (row, col)
    · rw [Prod.mk.injEq] at h1
      obtain ⟨rfl, rfl⟩ := h1
      by_cases h2 : (r2, c) = (r1, c)
      · rw [Prod.mk.injEq] at h2
        exact h2.1.symm
      · rw [cvs] at heq
        rw [cvn h2] at heq
        have hmem := inv.colFull r2 hr2 c hc (by rw [← heq]; exact hd0)
        rw [← heq] at hmem
        exact absurd hmem hl2
    · rw [cvn h1] at hval1 heq
      by_cases h2 : (r2, c) = (row, col)
      · rw [Prod.mk.injEq] at h2
        obtain ⟨rfl, rfl⟩ := h2
        rw [cvs] at heq
        have hmem := inv.colFull r1 hr1 c hc hval1
        rw [heq] at hmem
        exact absurd hmem hl2
      · rw [cvn h2] at heq
        exact inv.colInj c hc r1 hr1 r2 hr2 hval1 heq
  have hBM : ∀ p ∈ sadd st.grid_to_cells (sub_grid_no row col, d),
      p.2 ≠ 0 ∧ ∃ r < 9, ∃ c < 9, sub_grid_no r c = p.1 ∧
        cellVal (setCell st.grid row col d) r c = p.2 := by
    intro p hp
    rcases mem_sadd.mp hp with rfl | hp'
    · exact ⟨hd0, row, hr9, col, hc9, rfl, cvs⟩
    · obtain ⟨h2, r', hr', c', hc', hkey, hval⟩ := inv.boxMem _ hp'
      refine ⟨h2, r', hr', c', hc', hkey, ?_⟩
      have hne : (r', c') ≠ (row, col) := by
        intro hh
        rw [Prod.mk.injEq] at hh
        obtain ⟨he1, he2⟩ := hh
        rw [he1, he2, hpiv] at hval
        exact h2 hval.symm
      rw [cvn hne]
      exact hval
  have hBF : ∀ r < 9, ∀ c < 9, cellVal (setCell st.grid row col d) r c ≠ 0 →
      (sub_grid_no r c, cellVal (setCell st.grid row col d) r c) ∈
        sadd st.grid_to_cells (sub_grid_no row col, d) := by
    intro r hr c hc hval
    by_cases h : (r, c) = (row, col)
    · rw [Prod.mk.injEq] at h
      obtain ⟨rfl, rfl⟩ := h
      rw [cvs]
      exact mem_sadd.mpr (Or.inl rfl)
    · rw [cvn h] at hval ⊢
      exact mem_sadd.mpr (Or.inr (inv.boxFull r hr c hc hval))
  have hBI : ∀ r1 < 9, ∀ c1 < 9, ∀ r2 < 9, ∀ c2 < 9,
      sub_grid_no r1 c1 = sub_grid_no r2 c2 →
      cellVal (setCell st.grid row col d) r1 c1 ≠ 0 →
      cellVal (setCell st.grid row col d) r1 c1 =
        cellVal (setCell st.grid row col d) r2 c2 → (r1, c1) = (r2, c2) := by
    intro r1 hr1 c1 hc1 r2 hr2 c2 hc2 hkey hval1 heq
    by_cases h1 : (r1, c1) = (row, col)
    · rw [Prod.mk.injEq] at h1
      obtain ⟨rfl, rfl⟩ := h1
      by_cases h2 : (r2, c2) = (r1, c1)
      · rw [Prod.mk.injEq] at h2
        obtain ⟨he1, he2⟩ := h2
        rw [he1, he2]
      · rw [cvs] at heq
        rw [cvn h2] at heq
        have hmem := inv.boxFull r2 hr2 c2 hc2 (by rw [← heq]; exact hd0)
        rw [← heq, ← hkey] at hmem
        exact absurd hmem hl3
    · rw [cvn h1] at hval1 heq
      by_cases h2 : (r2, c2) = (row, col)
      · rw [Prod.mk.injEq] at h2
        obtain ⟨rfl, rfl⟩ := h2
        rw [cvs] at heq
        have hmem := inv.boxFull r1 hr1 c1 hc1 hval1
        rw [heq, hkey] at hmem
        exact absurd hmem hl3
      · rw [cvn h2] at heq
        exact inv.boxInj r1 hr1 c1 hc1 r2 hr2 c2 hc2 hkey hval1 heq
  exact ⟨hShape, hVals, hNodup, hEM, hEF, hRM, hRF, hRI, hCM, hCF, hCI, hBM, hBF, hBI⟩

/-- The relation `Preserves` is reflexive. -/
lemma preserves_refl (st : SolverState) : Preserves st st :=
  fun _ _ _ _ _ => rfl

/-- A state preserving the grid after a placement at an empty cell also
preserves the grid before it. -/
lemma preserves_place {st g : SolverState} {row col : Nat} {d : Int}
    (hpiv : cellVal st.grid row col = 0)
    (hp : Preserves (place st row col d) g) : Preserves st g := by
  intro r hr c hc hval
  have hne : (r, c) ≠ (row, col) := by
    intro hh
    rw [Prod.mk.injEq] at hh
    obtain ⟨rfl, rfl⟩ := hh
    exact hval hpiv
  have hv' : cellVal (place st row col d).grid r c = cellVal st.grid r c :=
    cellVal_setCell_ne hne
  have h2 := hp r hr c hc (by rw [hv']; exact hval)
  rw [hv'] at h2
  exact h2

/-! ## The depth-first search: behaviour, restoration, and fuel stability -/

/-- The two possible outcomes of the search from an invariant state: either
success with a complete invariant state (also returned as the final state),
or failure with the state restored exactly to the input state. -/
def DfsOut (st : SolverState) (out : Option SolverState × SolverState) : Prop :=
  (∃ g, out = (some g, g) ∧ Inv g ∧ g.empty_cells = [] ∧ Preserves st g) ∨
    out = (none, st)

lemma foldl_step_some {rec : SolverState → Option SolverState × SolverState}
    {row col : Nat} {g stg : SolverState} (ds : List Int) :
    ds.foldl (dfs_step rec row col) (some g, stg) = (some g, stg) := by
  induction ds with
  | nil => rfl
  | cons d ds ih =>
    rw [List.foldl_cons]
    exact ih

lemma dfsF_none {fuel : Nat} {st : SolverState}
    (h : st.empty_cells.getLast? = none) : dfsF fuel st = (some st, st) := by
  unfold dfsF
  rw [h]

lemma dfsF_zero {st : SolverState} {row col : Nat}
    (h : st.empty_cells.getLast? = some (row, col)) : dfsF 0 st = (none, st) := by
  unfold dfsF
  rw [h]

lemma dfsF_succ {fuel : Nat} {st : SolverState} {row col : Nat}
    (h : st.empty_cells.getLast? = some (row, col)) :
    dfsF (fuel + 1) st = digits.foldl (dfs_step (dfsF fuel) row col) (none, st) := by
  conv_lhs => unfold dfsF
  rw [h]

/-- Behaviour and fuel stability of the digit loop, given both for the
recursive calls one level deeper. -/
lemma try_master (fuel : Nat)
    (IH : ∀ st', Inv st' → st'.empty_cells.length ≤ fuel →
      DfsOut st' (dfsF fuel st') ∧ dfsF (fuel + 1) st' = dfsF fuel st') :
    ∀ ds : List Int, (∀ d ∈ ds, d ∈ digits) →
    ∀ st row col, Inv st → st.empty_cells.getLast? = some (row, col) →
      st.empty_cells.length ≤ fuel + 1 →
      DfsOut st (ds.foldl (dfs_step (dfsF fuel) row col) (none, st)) ∧
        ds.foldl (dfs_step (dfsF (fuel + 1)) row col) (none, st) =
          ds.foldl (dfs_step (dfsF fuel) row col) (none, st) := by
  intro ds
  induction ds with
  | nil =>
    intro _ st row col inv hlast hlen
    exact ⟨Or.inr rfl, rfl⟩
  | cons d ds ih =>
    intro hds st row col inv hlast hlen
    have hd : d ∈ digits := hds d (List.mem_cons_self _ _)
    have hds' : ∀ x ∈ ds, x ∈ digits := fun x hx => hds x (List.mem_cons_of_mem _ hx)
    rw [List.foldl_cons, List.foldl_cons]
    obtain ⟨hr9, hc9, hpiv⟩ := inv.emptyMem _ (List.mem_of_getLast?_eq_some hlast)
    by_cases hleg : digit_is_legal st row col d = true
    · have inv' : Inv (place st row col d) := inv_place inv hlast hd hleg
      have hlen' : (place st row col d).empty_cells.length ≤ fuel := by
        have := length_dropLast_succ hlast
        simp only [place]
        omega
      obtain ⟨hbeh, hstab⟩ := IH (place st row col d) inv' hlen'
      rcases hbeh with ⟨g, hout, invg, hge, hpres⟩ | hout
      · have hstep : dfs_step (dfsF fuel) row col (none, st) d = (some g, g) := by
          simp [dfs_step, hleg, hout]
        have hstep' : dfs_step (dfsF (fuel + 1)) row col (none, st) d = (some g, g) := by
          simp [dfs_step, hleg, hstab, hout]
        rw [hstep, hstep', foldl_step_some, foldl_step_some]
        exact ⟨Or.inl ⟨g, rfl, invg, hge, preserves_place hpiv hpres⟩, rfl⟩
      · have hundo : undo (place st row col d) row col d = st :=
          undo_place hlast hpiv hleg
        have hstep : dfs_step (dfsF fuel) row col (none, st) d = (none, st) := by
          simp [dfs_step, hleg, hout, hundo]
        have hstep' : dfs_step (dfsF (fuel + 1)) row col (none, st) d = (none, st) := by
          simp [dfs_step, hleg, hstab, hout, hundo]
        rw [hstep, hstep']
        exact ih hds' st row col inv hlast hlen
    · have hstep : dfs_step (dfsF fuel) row col (none, st) d = (none, st) := by
        simp [dfs_step, hleg]
      have hstep' : dfs_step (dfsF (fuel + 1)) row col (none, st) d = (none, st) := by
        simp [dfs_step, hleg]
      rw [hstep, hstep']
      exact ih hds' st row col inv hlast hlen

/-- Master lemma: from an invariant state with enough fuel, the search
either succeeds with a complete invariant state preserving the filled cells,
or fails with the state restored exactly; and one more unit of fuel changes
nothing. -/
lemma dfs_master : ∀ fuel st, Inv st → st.empty_cells.length ≤ fuel →
    DfsOut st (dfsF fuel st) ∧ dfsF (fuel + 1) st = dfsF fuel st := by
  intro fuel
  induction fuel with
  | zero =>
    intro st inv hlen
    have hemp : st.empty_cells = [] := List.length_eq_zero.mp (Nat.le_zero.mp hlen)
    have hnone : st.empty_cells.getLast? = none := by rw [hemp]; rfl
    rw [dfsF_none hnone, dfsF_none hnone]
    exact ⟨Or.inl ⟨st, rfl, inv, hemp, preserves_refl st⟩, rfl⟩
  | succ fuel ih =>
    intro st inv hlen
    cases hlast : st.empty_cells.getLast? with
    | none =>
      have hemp : st.empty_cells = [] := List.getLast?_eq_none_iff.mp hlast
      rw [dfsF_none hlast, dfsF_none hlast]
      exact ⟨Or.inl ⟨st, rfl, inv, hemp, preserves_refl st⟩, rfl⟩
    | some rc =>
      obtain ⟨row, col⟩ := rc
      rw [dfsF_succ hlast, dfsF_succ hlast]
      exact try_master fuel ih digits (fun d hd => hd) st row col inv hlast hlen

/-- With the invariant, any fuel at least the number of empty cells computes
exactly what the entry point `depth_first_search` computes. -/
lemma dfsF_ge_len {st : SolverState} (inv : Inv st) {fuel : Nat}
    (h : st.empty_cells.length ≤ fuel) : dfsF fuel st = depth_first_search st := by
  have haux : ∀ k, dfsF (st.empty_cells.length + k) st = dfsF st.empty_cells.length st := by
    intro k
    induction k with
    | zero => rfl
    | succ k ih =>
      have h2 := (dfs_master (st.empty_cells.length + k) st inv (by omega)).2
      exact h2.trans ih
  have hk := haux (fuel - st.empty_cells.length)
  rw [show st.empty_cells.length + (fuel - st.empty_cells.length) = fuel from by omega] at hk
  exact hk

/-! ## A complete invariant state is a valid solved grid -/

lemma perm_digits_of {vals : List Int} (hnd : vals.Nodup)
    (hsub : ∀ v ∈ vals, v ∈ digits) (hlen : vals.length = 9) :
    vals.Perm digits := by
  have hsp := List.subperm_of_subset hnd hsub
  refine hsp.perm_of_length_le ?_
  rw [hlen]
  decide

lemma boxCells_nodup : ∀ br < 3, ∀ bc < 3, (boxCells br bc).Nodup := by decide

lemma mem_boxCells {br bc : Nat} {rc : Nat × Nat} (hbr : br < 3) (hbc : bc < 3) :
    rc ∈ boxCells br bc ↔ rc.1 < 9 ∧ rc.2 < 9 ∧ rc.1 / 3 = br ∧ rc.2 / 3 = bc := by
  obtain ⟨r, c⟩ := rc
  simp only [boxCells, List.mem_flatMap, List.mem_map, List.mem_range, Prod.mk.injEq]
  constructor
  · rintro ⟨i, hi, j, hj, rfl, rfl⟩
    refine ⟨by omega, by omega, by omega, by omega⟩
  · rintro ⟨h1, h2, h3, h4⟩
    exact ⟨r % 3, by omega, c % 3, by omega, by omega, by omega⟩

lemma rowVals_length {g : Grid} {r : Nat} : (rowVals g r).length = 9 := rfl

lemma colVals_length {g : Grid} {c : Nat} : (colVals g c).length = 9 := rfl

lemma boxVals_length {g : Grid} {br bc : Nat} : (boxVals g br bc).length = 9 := rfl

/-- A state satisfying the invariant with no empty cells left is a valid
solved grid. -/
lemma final_valid {st : SolverState} (inv : Inv st) (hemp : st.empty_cells = []) :
    ValidSolvedGrid st.grid := by
  have hnz : ∀ r < 9, ∀ c < 9, cellVal st.grid r c ≠ 0 := by
    intro r hr c hc h0
    have hmem := inv.emptyFull r hr c hc h0
    rw [hemp] at hmem
    exact List.not_mem_nil _ hmem
  have hdig : ∀ r < 9, ∀ c < 9, cellVal st.grid r c ∈ digits := by
    intro r hr c hc
    rcases inv.vals r hr c hc with h0 | hd
    · exact absurd h0 (hnz r hr c hc)
    · exact hd
  refine ⟨inv.shape, ?_, ?_, ?_⟩
  · intro r hr
    refine perm_digits_of ?_ ?_ rowVals_length
    · unfold rowVals
      refine List.Nodup.map_on ?_ (List.nodup_range 9)
      intro c1 hc1 c2 hc2 heq
      rw [List.mem_range] at hc1 hc2
      exact inv.rowInj r hr c1 hc1 c2 hc2 (hnz r hr c1 hc1) heq
    · intro v hv
      simp only [rowVals, List.mem_map, List.mem_range] at hv
      obtain ⟨c, hc, rfl⟩ := hv
      exact hdig r hr c hc
  · intro c hc
    refine perm_digits_of ?_ ?_ colVals_length
    · unfold colVals
      refine List.Nodup.map_on ?_ (List.nodup_range 9)
      intro r1 hr1 r2 hr2 heq
      rw [List.mem_range] at hr1 hr2
      exact inv.colInj c hc r1 hr1 r2 hr2 (hnz r1 hr1 c hc) heq
    · intro v hv
      simp only [colVals, List.mem_map, List.mem_range] at hv
      obtain ⟨r, hr, rfl⟩ := hv
      exact hdig r hr c hc
  · intro br hbr bc hbc
    refine perm_digits_of ?_ ?_ boxVals_length
    · unfold boxVals
      refine List.Nodup.map_on ?_ (boxCells_nodup br hbr bc hbc)
      intro rc1 h1 rc2 h2 heq
      obtain ⟨a1, b1⟩ := rc1
      obtain ⟨a2, b2⟩ := rc2
      rw [mem_boxCells hbr hbc] at h1 h2
      obtain ⟨ha1, hb1, hd1, he1⟩ := h1
      obtain ⟨ha2, hb2, hd2, he2⟩ := h2
      exact inv.boxInj a1 ha1 b1 hb1 a2 ha2 b2 hb2
        (by simp [sub_grid_no, hd1, he1, hd2, he2]) (hnz a1 ha1 b1 hb1) heq
    · intro v hv
      simp only [boxVals, List.mem_map] at hv
      obtain ⟨rc, hrc, rfl⟩ := hv
      obtain ⟨a, b⟩ := rc
      rw [mem_boxCells hbr hbc] at hrc
      exact hdig a hrc.1 b hrc.2.1

/-! ## The population-and-validation loop -/

/-- Scanning the remaining cells from a state satisfying the scan invariant:
success yields the scan invariant over all cells, failure exhibits a
duplicate clue. -/
lemma init_scan_main {g : Grid} : ∀ todo done st, done ++ todo = allCells →
    ScanInv g done st →
    (∀ st', init_scan todo st = some st' → ScanInv g allCells st') ∧
      (init_scan todo st = none → HasDuplicateClue g) := by
  intro todo
  induction todo with
  | nil =>
    intro done st happ hsi
    rw [List.append_nil] at happ
    constructor
    · intro st' heq
      simp only [init_scan, Option.some.injEq] at heq
      subst heq
      exact happ ▸ hsi
    · intro heq
      simp only [init_scan] at heq
      exact Option.noConfusion heq
  | cons rc rest ih =>
    obtain ⟨row, col⟩ := rc
    intro done st happ hsi
    have hnd : (done ++ (row, col) :: rest).Nodup := by
      rw [happ]
      exact allCells_nodup
    have hnotdone : (row, col) ∉ done := by
      rcases List.nodup_append.1 hnd with ⟨-, -, hdisj⟩
      intro hmem
      exact hdisj hmem (List.mem_cons_self _ _)
    have hrcall : (row, col) ∈ allCells := by
      rw [← happ]
      exact List.mem_append_right _ (List.mem_cons_self _ _)
    have hsubdone : ∀ x ∈ done, x ∈ allCells := by
      intro x hx
      rw [← happ]
      exact List.mem_append_left _ hx
    have happ' : (done ++ [(row, col)]) ++ rest = allCells := by
      rw [List.append_assoc, List.singleton_append]
      exact happ
    by_cases h0 : cellVal st.grid row col = 0
    · -- an empty cell: it is appended to `empty_cells`
      have hg0 : cellVal g row col = 0 := by
        rw [← hsi.hgrid]
        exact h0
      have hstep : init_scan ((row, col) :: rest) st =
          init_scan rest { st with empty_cells := st.empty_cells ++ [(row, col)] } := by
        simp [init_scan, h0]
      rw [hstep]
      refine ih (done ++ [(row, col)]) _ happ' ?_
      refine ⟨hsi.hgrid, ?_, ?_, ?_, ?_, ?_, ?_, ?_⟩
      · show st.empty_cells ++ [(row, col)] = _
        rw [List.filter_append, ← hsi.hemp]
        congr 1
        simp [hg0]
      · intro p
        refine Iff.trans (hsi.hrow p) ?_
        constructor
        · rintro ⟨c, hc, hval, hnz⟩
          exact ⟨c, List.mem_append_left _ hc, hval, hnz⟩
        · rintro ⟨c, hc, hval, hnz⟩
          rcases List.mem_append.1 hc with h | h
          · exact ⟨c, h, hval, hnz⟩
          · rw [List.mem_singleton] at h
            have e1 : p.1 = row := congrArg Prod.fst h
            have e2 : c = col := congrArg Prod.snd h
            rw [e1, e2, hg0] at hval
            exact absurd hval.symm hnz
      · intro p
        refine Iff.trans (hsi.hcol p) ?_
        constructor
        · rintro ⟨r, hr, hval, hnz⟩
          exact ⟨r, List.mem_append_left _ hr, hval, hnz⟩
        · rintro ⟨r, hr, hval, hnz⟩
          rcases List.mem_append.1 hr with h | h
          · exact ⟨r, h, hval, hnz⟩
          · rw [List.mem_singleton] at h
            have e1 : r = row := congrArg Prod.fst h
            have e2 : p.1 = col := congrArg Prod.snd h
            rw [e1, e2, hg0] at hval
            exact absurd hval.symm hnz
      · intro p
        refine Iff.trans (hsi.hbox p) ?_
        constructor
        · rintro ⟨rc', hrc', hkey, hval, hnz⟩
          exact ⟨rc', List.mem_append_left _ hrc', hkey, hval, hnz⟩
        · rintro ⟨rc', hrc', hkey, hval, hnz⟩
          rcases List.mem_append.1 hrc' with h | h
          · exact ⟨rc', h, hkey, hval, hnz⟩
          · rw [List.mem_singleton] at h
            have hval' : cellVal g row col = p.2 := by
              rw [← hval, h]
            rw [hg0] at hval'
            exact absurd hval'.symm hnz
      · intro rc1 h1 rc2 h2 hEq hnz hveq
        rcases List.mem_append.1 h1 with h1d | h1s
        · rcases List.mem_append.1 h2 with h2d | h2s
          · exact hsi.hrowInj rc1 h1d rc2 h2d hEq hnz hveq
          · rw [List.mem_singleton] at h2s
            have hv2 : cellVal g rc1.1 rc1.2 = 0 := by
              rw [hveq, h2s]
              exact hg0
            exact absurd hv2 hnz
        · rw [List.mem_singleton] at h1s
          have hv1 : cellVal g rc1.1 rc1.2 = 0 := by
            rw [h1s]
            exact hg0
          exact absurd hv1 hnz
      · intro rc1 h1 rc2 h2 hEq hnz hveq
        rcases List.mem_append.1 h1 with h1d | h1s
        · rcases List.mem_append.1 h2 with h2d | h2s
          · exact hsi.hcolInj rc1 h1d rc2 h2d hEq hnz hveq
          · rw [List.mem_singleton] at h2s
            have hv2 : cellVal g rc1.1 rc1.2 = 0 := by
              rw [hveq, h2s]
              exact hg0
            exact absurd hv2 hnz
        · rw [List.mem_singleton] at h1s
          have hv1 : cellVal g rc1.1 rc1.2 = 0 := by
            rw [h1s]
            exact hg0
          exact absurd hv1 hnz
      · intro rc1 h1 rc2 h2 hEq hnz hveq
        rcases List.mem_append.1 h1 with h1d | h1s
        · rcases List.mem_append.1 h2 with h2d | h2s
          · exact hsi.hboxInj rc1 h1d rc2 h2d hEq hnz hveq
          · rw [List.mem_singleton] at h2s
            have hv2 : cellVal g rc1.1 rc1.2 = 0 := by
              rw [hveq, h2s]
              exact hg0
            exact absurd hv2 hnz
        · rw [List.mem_singleton] at h1s
          have hv1 : cellVal g rc1.1 rc1.2 = 0 := by
            rw [h1s]
            exact hg0
          exact absurd hv1 hnz
    · -- a filled cell: check it against the used-sets
      have hgnz : cellVal g row col ≠ 0 := by
        rw [← hsi.hgrid]
        exact h0
      by_cases hdup : (row, cellVal st.grid row col) ∈ st.row_to_seen_vals ∨
          (col, cellVal st.grid row col) ∈ st.col_to_seen_vals ∨
          (sub_grid_no row col, cellVal st.grid row col) ∈ st.grid_to_cells
      · -- duplicate found: the scan aborts
        have hstep : init_scan ((row, col) :: rest) st = none := by
          simp [init_scan, h0, hdup]
        rw [hstep]
        constructor
        · intro st' heq
          exact Option.noConfusion heq
        · intro _
          rcases hdup with hmem | hmem | hmem
          · obtain ⟨c', hc', hval, -⟩ := (hsi.hrow _).mp hmem
            have hc'' : (row, c') ∈ done := hc'
            have hval' : cellVal g row c' = cellVal g row col := by
              have hv : cellVal g row c' = cellVal st.grid row col := hval
              rwa [hsi.hgrid] at hv
            refine ⟨(row, c'), hsubdone _ hc'', (row, col), hrcall, ?_, ?_, hval', Or.inl rfl⟩
            · intro hh
              rw [hh] at hc''
              exact hnotdone hc''
            · rw [hval']
              exact hgnz
          · obtain ⟨r', hr', hval, -⟩ := (hsi.hcol _).mp hmem
            have hr'' : (r', col) ∈ done := hr'
            have hval' : cellVal g r' col = cellVal g row col := by
              have hv : cellVal g r' col = cellVal st.grid row col := hval
              rwa [hsi.hgrid] at hv
            refine ⟨(r', col), hsubdone _ hr'', (row, col), hrcall, ?_, ?_, hval',
              Or.inr (Or.inl rfl)⟩
            · intro hh
              rw [hh] at hr''
              exact hnotdone hr''
            · rw [hval']
              exact hgnz
          · obtain ⟨rc', hrc', hkey, hval, -⟩ := (hsi.hbox _).mp hmem
            have hkey' : sub_grid_no rc'.1 rc'.2 = sub_grid_no row col := hkey
            have hval' : cellVal g rc'.1 rc'.2 = cellVal g row col := by
              have hv : cellVal g rc'.1 rc'.2 = cellVal st.grid row col := hval
              rwa [hsi.hgrid] at hv
            refine ⟨rc', hsubdone _ hrc', (row, col), hrcall, ?_, ?_, hval',
              Or.inr (Or.inr hkey')⟩
            · intro hh
              rw [hh] at hrc'
              exact hnotdone hrc'
            · rw [hval']
              exact hgnz
      · -- no conflict: the value is recorded in the three used-sets
        have hstep : init_scan ((row, col) :: rest) st =
            init_scan rest { st with
              col_to_seen_vals := sadd st.col_to_seen_vals (col, cellVal st.grid row col)
              row_to_seen_vals := sadd st.row_to_seen_vals (row, cellVal st.grid row col)
              grid_to_cells := sadd st.grid_to_cells
                (sub_grid_no row col, cellVal st.grid row col) } := by
          simp [init_scan, h0, hdup]
        rw [hstep]
        rw [not_or, not_or] at hdup
        obtain ⟨hA, hB, hC⟩ := hdup
        refine ih (done ++ [(row, col)]) _ happ' ?_
        refine ⟨hsi.hgrid, ?_, ?_, ?_, ?_, ?_, ?_, ?_⟩
        · show st.empty_cells = _
          rw [List.filter_append, ← hsi.hemp]
          have hfe : ([(row, col)].filter fun rc => decide (cellVal g rc.1 rc.2 = 0)) =
              ([] : List (Nat × Nat)) := by
            simp [hgnz]
          rw [hfe, List.append_nil]
        · intro p
          refine Iff.trans mem_sadd ?_
          constructor
          · rintro (heqp | hp')
            · have e1 : p.1 = row := congrArg Prod.fst heqp
              have e2 : p.2 = cellVal st.grid row col := congrArg Prod.snd heqp
              refine ⟨col, ?_, ?_, ?_⟩
              · rw [e1]
                exact List.mem_append_right _ (List.mem_singleton_self _)
              · rw [e1, e2, hsi.hgrid]
              · rw [e2]
                exact h0
            · obtain ⟨c, hc, hval, hnz⟩ := (hsi.hrow _).mp hp'
              exact ⟨c, List.mem_append_left _ hc, hval, hnz⟩
          · rintro ⟨c, hc, hval, hnz⟩
            rcases List.mem_append.1 hc with h | h
            · exact Or.inr ((hsi.hrow _).mpr ⟨c, h, hval, hnz⟩)
            · rw [List.mem_singleton] at h
              have e1 : p.1 = row := congrArg Prod.fst h
              have e2 : c = col := congrArg Prod.snd h
              left
              rw [Prod.mk.injEq]
              refine ⟨e1, ?_⟩
              rw [← hval, e1, e2, hsi.hgrid]
        · intro p
          refine Iff.trans mem_sadd ?_
          constructor
          · rintro (heqp | hp')
            · have e1 : p.1 = col := congrArg Prod.fst heqp
              have e2 : p.2 = cellVal st.grid row col := congrArg Prod.snd heqp
              refine ⟨row, ?_, ?_, ?_⟩
              · rw [e1]
                exact List.mem_append_right _ (List.mem_singleton_self _)
              · rw [e1, e2, hsi.hgrid]
              · rw [e2]
                exact h0
            · obtain ⟨r, hr, hval, hnz⟩ := (hsi.hcol _).mp hp'
              exact ⟨r, List.mem_append_left _ hr, hval, hnz⟩
          · rintro ⟨r, hr, hval, hnz⟩
            rcases List.mem_append.1 hr with h | h
            · exact Or.inr ((hsi.hcol _).mpr ⟨r, h, hval, hnz⟩)
            · rw [List.mem_singleton] at h
              have e1 : r = row := congrArg Prod.fst h
              have e2 : p.1 = col := congrArg Prod.snd h
              left
              rw [Prod.mk.injEq]
              refine ⟨e2, ?_⟩
              rw [← hval, e1, e2, hsi.hgrid]
        · intro p
          refine Iff.trans mem_sadd ?_
          constructor
          · rintro (heqp | hp')
            · have e1 : p.1 = sub_grid_no row col := congrArg Prod.fst heqp
              have e2 : p.2 = cellVal st.grid row col := congrArg Prod.snd heqp
              refine ⟨(row, col), ?_, ?_, ?_, ?_⟩
              · exact List.mem_append_right _ (List.mem_singleton_self _)
              · rw [e1]
              · rw [e2, hsi.hgrid]
              · rw [e2]
                exact h0
            · obtain ⟨rc', hrc', hkey, hval, hnz⟩ := (hsi.hbox _).mp hp'
              exact ⟨rc', List.mem_append_left _ hrc', hkey, hval, hnz⟩
          · rintro ⟨rc', hrc', hkey, hval, hnz⟩
            rcases List.mem_append.1 hrc' with h | h
            · exact Or.inr ((hsi.hbox _).mpr ⟨rc', h, hkey, hval, hnz⟩)
            · rw [List.mem_singleton] at h
              left
              rw [Prod.mk.injEq]
              constructor
              · rw [← hkey, h]
              · rw [← hval, h, hsi.hgrid]
        · intro rc1 h1 rc2 h2 hEq hnz hveq
          rcases List.mem_append.1 h1 with h1d | h1s
          · rcases List.mem_append.1 h2 with h2d | h2s
            · exact hsi.hrowInj rc1 h1d rc2 h2d hEq hnz hveq
            · rw [List.mem_singleton] at h2s
              have e1 : rc1.1 = row := by
                rw [hEq, h2s]
              have hmem : (row, cellVal st.grid row col) ∈ st.row_to_seen_vals := by
                refine (hsi.hrow _).mpr ⟨rc1.2, ?_, ?_, ?_⟩
                · show (row, rc1.2) ∈ done
                  rw [← e1, Prod.mk.eta]
                  exact h1d
                · show cellVal g row rc1.2 = cellVal st.grid row col
                  calc cellVal g row rc1.2
                      = cellVal g rc1.1 rc1.2 := by rw [e1]
                    _ = cellVal g rc2.1 rc2.2 := hveq
                    _ = cellVal g row col := by rw [h2s]
                    _ = cellVal st.grid row col := by rw [hsi.hgrid]
                · exact h0
              exact absurd hmem hA
          · rw [List.mem_singleton] at h1s
            rcases List.mem_append.1 h2 with h2d | h2s
            · have e1 : rc2.1 = row := by
                rw [← hEq, h1s]
              have hmem : (row, cellVal st.grid row col) ∈ st.row_to_seen_vals := by
                refine (hsi.hrow _).mpr ⟨rc2.2, ?_, ?_, ?_⟩
                · show (row, rc2.2) ∈ done
                  rw [← e1, Prod.mk.eta]
                  exact h2d
                · show cellVal g row rc2.2 = cellVal st.grid row col
                  calc cellVal g row rc2.2
                      = cellVal g rc2.1 rc2.2 := by rw [e1]
                    _ = cellVal g rc1.1 rc1.2 := hveq.symm
                    _ = cellVal g row col := by rw [h1s]
                    _ = cellVal st.grid row col := by rw [hsi.hgrid]
                · exact h0
              exact absurd hmem hA
            · rw [List.mem_singleton] at h2s
              rw [h1s, h2s]
        · intro rc1 h1 rc2 h2 hEq hnz hveq
          rcases List.mem_append.1 h1 with h1d | h1s
          · rcases List.mem_append.1 h2 with h2d | h2s
            · exact hsi.hcolInj rc1 h1d rc2 h2d hEq hnz hveq
            · rw [List.mem_singleton] at h2s
              have e1 : rc1.2 = col := by
                rw [hEq, h2s]
              have hmem : (col, cellVal st.grid row col) ∈ st.col_to_seen_vals := by
                refine (hsi.hcol _).mpr ⟨rc1.1, ?_, ?_, ?_⟩
                · show (rc1.1, col) ∈ done
                  rw [← e1, Prod.mk.eta]
                  exact h1d
                · show cellVal g rc1.1 col = cellVal st.grid row col
                  calc cellVal g rc1.1 col
                      = cellVal g rc1.1 rc1.2 := by rw [e1]
                    _ = cellVal g rc2.1 rc2.2 := hveq
                    _ = cellVal g row col := by rw [h2s]
                    _ = cellVal st.grid row col := by rw [hsi.hgrid]
                · exact h0
              exact absurd hmem hB
          · rw [List.mem_singleton] at h1s
            rcases List.mem_append.1 h2 with h2d | h2s
            · have e1 : rc2.2 = col := by
                rw [← hEq, h1s]
              have hmem : (col, cellVal st.grid row col) ∈ st.col_to_seen_vals := by
                refine (hsi.hcol _).mpr ⟨rc2.1, ?_, ?_, ?_⟩
                · show (rc2.1, col) ∈ done
                  rw [← e1, Prod.mk.eta]
                  exact h2d
                · show cellVal g rc2.1 col = cellVal st.grid row col
                  calc cellVal g rc2.1 col
                      = cellVal g rc2.1 rc2.2 := by rw [e1]
                    _ = cellVal g rc1.1 rc1.2 := hveq.symm
                    _ = cellVal g row col := by rw [h1s]
                    _ = cellVal st.grid row col := by rw [hsi.hgrid]
                · exact h0
              exact absurd hmem hB
            · rw [List.mem_singleton] at h2s
              rw [h1s, h2s]
        · intro rc1 h1 rc2 h2 hEq hnz hveq
          rcases List.mem_append.1 h1 with h1d | h1s
          · rcases List.mem_append.1 h2 with h2d | h2s
            · exact hsi.hboxInj rc1 h1d rc2 h2d hEq hnz hveq
            · rw [List.mem_singleton] at h2s
              have e1 : sub_grid_no rc1.1 rc1.2 = sub_grid_no row col := by
                rw [hEq, h2s]
              have hmem : (sub_grid_no row col, cellVal st.grid row col) ∈
                  st.grid_to_cells := by
                refine (hsi.hbox _).mpr ⟨rc1, h1d, e1, ?_, h0⟩
                show cellVal g rc1.1 rc1.2 = cellVal st.grid row col
                rw [hveq, h2s, hsi.hgrid]
              exact absurd hmem hC
          · rw [List.mem_singleton] at h1s
            rcases List.mem_append.1 h2 with h2d | h2s
            · have e1 : sub_grid_no rc2.1 rc2.2 = sub_grid_no row col := by
                rw [← hEq, h1s]
              have hmem : (sub_grid_no row col, cellVal st.grid row col) ∈
                  st.grid_to_cells := by
                refine (hsi.hbox _).mpr ⟨rc2, h2d, e1, ?_, h0⟩
                show cellVal g rc2.1 rc2.2 = cellVal st.grid row col
                rw [← hveq, h1s, hsi.hgrid]
              exact absurd hmem hC
            · rw [List.mem_singleton] at h2s
              rw [h1s, h2s]

/-- The scan invariant holds at line 92-93, before any cell is scanned. -/
lemma scanInv_init {g : Grid} : ScanInv g [] (mkInit g) := by
  refine ⟨rfl, rfl, ?_, ?_, ?_, ?_, ?_, ?_⟩
  · intro p
    simp [mkInit]
  · intro p
    simp [mkInit]
  · intro p
    simp [mkInit]
  · intro rc1 h1
    exact absurd h1 (List.not_mem_nil _)
  · intro rc1 h1
    exact absurd h1 (List.not_mem_nil _)
  · intro rc1 h1
    exact absurd h1 (List.not_mem_nil _)

/-- Bounds on the values of a well-formed grid. -/
lemma gridWF_val_bounds {g : Grid} (hwf : GridWF g) :
    ∀ r < 9, ∀ c < 9, 0 ≤ cellVal g r c ∧ cellVal g r c ≤ 9 := by
  intro r hr c hc
  have hrow := getD_row_mem hwf.1 hr
  have hlen := row_length hwf.1 hr
  have hcl : c < (g.getD r []).length := by
    rw [hlen]
    exact hc
  have hmem : (g.getD r []).getD c 0 ∈ g.getD r [] := by
    rw [List.getD_eq_getElem _ _ hcl]
    exact List.getElem_mem hcl
  exact hwf.2 _ hrow _ hmem

/-- A completed scan of a well-formed grid establishes the full search
invariant. -/
lemma inv_of_scanInv {g : Grid} {st : SolverState} (hwf : GridWF g)
    (hsi : ScanInv g allCells st) : Inv st := by
  have hg := hsi.hgrid
  have hvb := gridWF_val_bounds hwf
  refine ⟨?_, ?_, ?_, ?_, ?_, ?_, ?_, ?_, ?_, ?_, ?_, ?_, ?_, ?_⟩
  · rw [hg]
    exact hwf.1
  · intro r hr c hc
    rw [hg]
    rcases eq_or_ne (cellVal g r c) 0 with h | h
    · exact Or.inl h
    · refine Or.inr (mem_digits.mpr ?_)
      have := hvb r hr c hc
      omega
  · rw [hsi.hemp]
    exact List.Nodup.filter _ allCells_nodup
  · intro rc hrc
    rw [hsi.hemp] at hrc
    obtain ⟨hmem, hp⟩ := List.mem_filter.mp hrc
    obtain ⟨a, b⟩ := rc
    obtain ⟨h1, h2⟩ := mem_allCells.mp hmem
    refine ⟨h1, h2, ?_⟩
    rw [hg]
    exact of_decide_eq_true hp
  · intro r hr c hc hval
    rw [hsi.hemp]
    refine List.mem_filter.mpr ⟨mem_allCells.mpr ⟨hr, hc⟩, ?_⟩
    rw [hg] at hval
    exact decide_eq_true hval
  · intro p hp
    obtain ⟨c, hc, hval, hnz⟩ := (hsi.hrow p).mp hp
    obtain ⟨h1, h2⟩ := mem_allCells.mp hc
    refine ⟨h1, hnz, c, h2, ?_⟩
    rw [hg]
    exact hval
  · intro r hr c hc hval
    exact (hsi.hrow _).mpr ⟨c, mem_allCells.mpr ⟨hr, hc⟩, by rw [hg], hval⟩
  · intro r hr c1 hc1 c2 hc2 hval heq
    rw [hg] at hval heq
    have := hsi.hrowInj (r, c1) (mem_allCells.mpr ⟨hr, hc1⟩)
      (r, c2) (mem_allCells.mpr ⟨hr, hc2⟩) rfl hval heq
    exact congrArg Prod.snd this
  · intro p hp
    obtain ⟨r, hr, hval, hnz⟩ := (hsi.hcol p).mp hp
    obtain ⟨h1, h2⟩ := mem_allCells.mp hr
    refine ⟨h2, hnz, r, h1, ?_⟩
    rw [hg]
    exact hval
  · intro r hr c hc hval
    exact (hsi.hcol _).mpr ⟨r, mem_allCells.mpr ⟨hr, hc⟩, by rw [hg], hval⟩
  · intro c hc r1 hr1 r2 hr2 hval heq
    rw [hg] at hval heq
    have := hsi.hcolInj (r1, c) (mem_allCells.mpr ⟨hr1, hc⟩)
      (r2, c) (mem_allCells.mpr ⟨hr2, hc⟩) rfl hval heq
    exact congrArg Prod.fst this
  · intro p hp
    obtain ⟨rc, hrc, hkey, hval, hnz⟩ := (hsi.hbox p).mp hp
    obtain ⟨a, b⟩ := rc
    obtain ⟨h1, h2⟩ := mem_allCells.mp hrc
    refine ⟨hnz, a, h1, b, h2, hkey, ?_⟩
    rw [hg]
    exact hval
  · intro r hr c hc hval
    exact (hsi.hbox _).mpr ⟨(r, c), mem_allCells.mpr ⟨hr, hc⟩, rfl, by rw [hg], hval⟩
  · intro r1 hr1 c1 hc1 r2 hr2 c2 hc2 hkey hval heq
    rw [hg] at hval heq
    exact hsi.hboxInj (r1, c1) (mem_allCells.mpr ⟨hr1, hc1⟩)
      (r2, c2) (mem_allCells.mpr ⟨hr2, hc2⟩) hkey hval heq

/-- A successful scan yields the invariant, keeps the grid, and tracks at
most 81 empty cells. -/
lemma scan_success {g : Grid} {st : SolverState} (hwf : GridWF g)
    (h : init_scan allCells (mkInit g) = some st) :
    Inv st ∧ st.grid = g ∧ st.empty_cells.length ≤ 81 := by
  have hsi := (init_scan_main allCells [] (mkInit g) rfl scanInv_init).1 st h
  refine ⟨inv_of_scanInv hwf hsi, hsi.hgrid, ?_⟩
  rw [hsi.hemp]
  calc (allCells.filter _).length ≤ allCells.length := List.length_filter_le _ _
    _ = 81 := rfl

/-- A failed scan means the input really has a duplicate clue. -/
lemma scan_none_dup {g : Grid} (h : init_scan allCells (mkInit g) = none) :
    HasDuplicateClue g :=
  (init_scan_main allCells [] (mkInit g) rfl scanInv_init).2 h

/-- A successful scan means the input has no duplicate clue. -/
lemma scan_some_nodup {g : Grid} {st : SolverState}
    (h : init_scan allCells (mkInit g) = some st) : ¬ HasDuplicateClue g := by
  have hsi := (init_scan_main allCells [] (mkInit g) rfl scanInv_init).1 st h
  rintro ⟨rc1, h1, rc2, h2, hne, hnz, heq, hcase⟩
  rcases hcase with hc | hc | hc
  · exact hne (hsi.hrowInj rc1 h1 rc2 h2 hc hnz heq)
  · exact hne (hsi.hcolInj rc1 h1 rc2 h2 hc hnz heq)
  · exact hne (hsi.hboxInj rc1 h1 rc2 h2 hc hnz heq)

/-! ## Completeness: a solvable state is solved by the search -/

lemma valid_cell_digit {S : Grid} (hS : ValidSolvedGrid S) :
    ∀ r < 9, ∀ c < 9, cellVal S r c ∈ digits := by
  intro r hr c hc
  have hperm := hS.2.1 r hr
  have hmem : cellVal S r c ∈ rowVals S r := by
    simp only [rowVals, List.mem_map, List.mem_range]
    exact ⟨c, hc, rfl⟩
  exact hperm.mem_iff.mp hmem

lemma valid_rowInj {S : Grid} (hS : ValidSolvedGrid S) :
    ∀ r < 9, ∀ c1 < 9, ∀ c2 < 9, cellVal S r c1 = cellVal S r c2 → c1 = c2 := by
  intro r hr c1 hc1 c2 hc2 heq
  have hnd : ((List.range 9).map fun c => cellVal S r c).Nodup :=
    ((hS.2.1 r hr).nodup_iff).mpr digits_nodup
  exact List.inj_on_of_nodup_map hnd
    (List.mem_range.mpr hc1) (List.mem_range.mpr hc2) heq

lemma valid_colInj {S : Grid} (hS : ValidSolvedGrid S) :
    ∀ c < 9, ∀ r1 < 9, ∀ r2 < 9, cellVal S r1 c = cellVal S r2 c → r1 = r2 := by
  intro c hc r1 hr1 r2 hr2 heq
  have hnd : ((List.range 9).map fun r => cellVal S r c).Nodup :=
    ((hS.2.2.1 c hc).nodup_iff).mpr digits_nodup
  exact List.inj_on_of_nodup_map hnd
    (List.mem_range.mpr hr1) (List.mem_range.mpr hr2) heq

lemma valid_boxInj {S : Grid} (hS : ValidSolvedGrid S) :
    ∀ r1 < 9, ∀ c1 < 9, ∀ r2 < 9, ∀ c2 < 9, sub_grid_no r1 c1 = sub_grid_no r2 c2 →
      cellVal S r1 c1 = cellVal S r2 c2 → (r1, c1) = (r2, c2) := by
  intro r1 hr1 c1 hc1 r2 hr2 c2 hc2 hkey heq
  have hbr : r1 / 3 < 3 := by omega
  have hbc : c1 / 3 < 3 := by omega
  have hperm := hS.2.2.2 (r1 / 3) hbr (c1 / 3) hbc
  have hnd : ((boxCells (r1 / 3) (c1 / 3)).map fun rc => cellVal S rc.1 rc.2).Nodup :=
    hperm.nodup_iff.mpr digits_nodup
  have hk1 : r2 / 3 = r1 / 3 := (congrArg Prod.fst hkey).symm
  have hk2 : c2 / 3 = c1 / 3 := (congrArg Prod.snd hkey).symm
  have hm1 : (r1, c1) ∈ boxCells (r1 / 3) (c1 / 3) :=
    (mem_boxCells hbr hbc).mpr ⟨hr1, hc1, rfl, rfl⟩
  have hm2 : (r2, c2) ∈ boxCells (r1 / 3) (c1 / 3) :=
    (mem_boxCells hbr hbc).mpr ⟨hr2, hc2, hk1, hk2⟩
  exact List.inj_on_of_nodup_map hnd hm1 hm2 heq

/-- The digit that a valid completion assigns to the chosen cell is legal. -/
lemma sol_digit_legal {st : SolverState} {S : Grid} {row col : Nat}
    (inv : Inv st) (hS : ValidSolvedGrid S) (hag : AgreesG st.grid S)
    (hlast : st.empty_cells.getLast? = some (row, col)) :
    digit_is_legal st row col (cellVal S row col) = true := by
  obtain ⟨hr9, hc9, hpiv⟩ := inv.emptyMem _ (List.mem_of_getLast?_eq_some hlast)
  have hdS : cellVal S row col ∈ digits := valid_cell_digit hS row hr9 col hc9
  have hdnz : cellVal S row col ≠ 0 := by
    have := mem_digits.mp hdS
    omega
  rw [digit_is_legal_iff]
  refine ⟨?_, ?_, ?_⟩
  · intro hmem
    obtain ⟨-, -, c', hc', hval⟩ := inv.rowMem _ hmem
    have hval' : cellVal st.grid row c' = cellVal S row col := hval
    have hstnz : cellVal st.grid row c' ≠ 0 := by
      rw [hval']
      exact hdnz
    have hvS : cellVal S row c' = cellVal st.grid row c' := hag row hr9 c' hc' hstnz
    have heqc : c' = col := valid_rowInj hS row hr9 c' hc' col hc9 (by rw [hvS, hval'])
    rw [heqc] at hstnz
    exact hstnz hpiv
  · intro hmem
    obtain ⟨-, -, r', hr', hval⟩ := inv.colMem _ hmem
    have hval' : cellVal st.grid r' col = cellVal S row col := hval
    have hstnz : cellVal st.grid r' col ≠ 0 := by
      rw [hval']
      exact hdnz
    have hvS : cellVal S r' col = cellVal st.grid r' col := hag r' hr' col hc9 hstnz
    have heqr : r' = row := valid_colInj hS col hc9 r' hr' row hr9 (by rw [hvS, hval'])
    rw [heqr] at hstnz
    exact hstnz hpiv
  · intro hmem
    obtain ⟨-, r', hr', c', hc', hkey, hval⟩ := inv.boxMem _ hmem
    have hkey' : sub_grid_no r' c' = sub_grid_no row col := hkey
    have hval' : cellVal st.grid r' c' = cellVal S row col := hval
    have hstnz : cellVal st.grid r' c' ≠ 0 := by
      rw [hval']
      exact hdnz
    have hvS : cellVal S r' c' = cellVal st.grid r' c' := hag r' hr' c' hc' hstnz
    have hpair : (r', c') = (row, col) :=
      valid_boxInj hS r' hr' c' hc' row hr9 col hc9 hkey' (by rw [hvS, hval'])
    have e1 : r' = row := congrArg Prod.fst hpair
    have e2 : c' = col := congrArg Prod.snd hpair
    rw [e1, e2] at hstnz
    exact hstnz hpiv

/-- Placing the completion's digit keeps the agreement with the completion. -/
lemma agrees_place {st : SolverState} {S : Grid} {row col : Nat}
    (inv : Inv st)
    (hlast : st.empty_cells.getLast? = some (row, col))
    (hag : AgreesG st.grid S) :
    AgreesG (place st row col (cellVal S row col)).grid S := by
  obtain ⟨hr9, hc9, hpiv⟩ := inv.emptyMem _ (List.mem_of_getLast?_eq_some hlast)
  intro r hr c hc hval
  by_cases h : (r, c) = (row, col)
  · rw [Prod.mk.injEq] at h
    obtain ⟨rfl, rfl⟩ := h
    exact (cellVal_setCell_self inv.shape hr hc).symm
  · have hv' : cellVal (place st row col (cellVal S row col)).grid r c =
        cellVal st.grid r c := cellVal_setCell_ne h
    rw [hv'] at hval ⊢
    exact hag r hr c hc hval

/-- Completeness of the search: a state satisfying the invariant that
agrees with some valid solved grid is solved by the search. -/
lemma dfs_complete : ∀ fuel st S, Inv st → st.empty_cells.length ≤ fuel →
    ValidSolvedGrid S → AgreesG st.grid S →
    ∃ g, dfsF fuel st = (some g, g) := by
  have key : ∀ fuel,
      (∀ st S, Inv st → st.empty_cells.length ≤ fuel → ValidSolvedGrid S →
        AgreesG st.grid S → ∃ g, dfsF fuel st = (some g, g)) →
      ∀ ds : List Int, (∀ d ∈ ds, d ∈ digits) →
      ∀ st S row col, Inv st → st.empty_cells.getLast? = some (row, col) →
        st.empty_cells.length ≤ fuel + 1 → ValidSolvedGrid S → AgreesG st.grid S →
        cellVal S row col ∈ ds →
        ∃ g, ds.foldl (dfs_step (dfsF fuel) row col) (none, st) = (some g, g) := by
    intro fuel ihc ds
    induction ds with
    | nil =>
      intro _ st S row col _ _ _ _ _ hmem
      exact absurd hmem (List.not_mem_nil _)
    | cons d ds ih =>
      intro hds st S row col inv hlast hlen hS hag hmem
      have hds' : ∀ x ∈ ds, x ∈ digits := fun x hx => hds x (List.mem_cons_of_mem _ hx)
      rw [List.foldl_cons]
      obtain ⟨hr9, hc9, hpiv⟩ := inv.emptyMem _ (List.mem_of_getLast?_eq_some hlast)
      by_cases hleg : digit_is_legal st row col d = true
      · have hd : d ∈ digits := hds d (List.mem_cons_self _ _)
        have inv' := inv_place inv hlast hd hleg
        have hlen' : (place st row col d).empty_cells.length ≤ fuel := by
          have := length_dropLast_succ hlast
          simp only [place]
          omega
        rcases (dfs_master fuel (place st row col d) inv' hlen').1 with
          ⟨g, hout, invg, hge, hpres⟩ | hout
        · have hstep : dfs_step (dfsF fuel) row col (none, st) d = (some g, g) := by
            simp [dfs_step, hleg, hout]
          rw [hstep, foldl_step_some]
          exact ⟨g, rfl⟩
        · have hundo : undo (place st row col d) row col d = st :=
            undo_place hlast hpiv hleg
          have hstep : dfs_step (dfsF fuel) row col (none, st) d = (none, st) := by
            simp [dfs_step, hleg, hout, hundo]
          rw [hstep]
          have hdne : cellVal S row col ≠ d := by
            intro hdd
            have hag' : AgreesG (place st row col d).grid S := by
              rw [← hdd]
              exact agrees_place inv hlast hag
            obtain ⟨g, hg⟩ := ihc (place st row col d) S inv' hlen' hS hag'
            rw [hout] at hg
            exact Option.noConfusion (congrArg Prod.fst hg)
          have hmem' : cellVal S row col ∈ ds := by
            rcases List.mem_cons.1 hmem with h | h
            · exact absurd h hdne
            · exact h
          exact ih hds' st S row col inv hlast hlen hS hag hmem'
      · have hstep : dfs_step (dfsF fuel) row col (none, st) d = (none, st) := by
          simp [dfs_step, hleg]
        rw [hstep]
        have hdne : cellVal S row col ≠ d := by
          intro hdd
          rw [← hdd] at hleg
          exact hleg (sol_digit_legal inv hS hag hlast)
        have hmem' : cellVal S row col ∈ ds := by
          rcases List.mem_cons.1 hmem with h | h
          · exact absurd h hdne
          · exact h
        exact ih hds' st S row col inv hlast hlen hS hag hmem'
  intro fuel
  induction fuel with
  | zero =>
    intro st S inv hlen hS hag
    have hemp : st.empty_cells = [] := List.length_eq_zero.mp (Nat.le_zero.mp hlen)
    have hnone : st.empty_cells.getLast? = none := by
      rw [hemp]
      rfl
    exact ⟨st, by rw [dfsF_none hnone]⟩
  | succ fuel ih =>
    intro st S inv hlen hS hag
    cases hlast : st.empty_cells.getLast? with
    | none => exact ⟨st, by rw [dfsF_none hlast]⟩
    | some rc =>
      obtain ⟨row, col⟩ := rc
      obtain ⟨hr9, hc9, hpiv⟩ := inv.emptyMem _ (List.mem_of_getLast?_eq_some hlast)
      rw [dfsF_succ hlast]
      exact key fuel ih digits (fun d hd => hd) st S row col inv hlast hlen hS hag
        (valid_cell_digit hS row hr9 col hc9)

/-! ## Assembling the solver-level facts -/

lemma invalid_cellVal : ∀ r < 9, ∀ c < 9, cellVal invalid_sudoku r c = -1 := by decide

lemma valid_grid_ne_invalid {st : SolverState} (inv : Inv st)
    (hemp : st.empty_cells = []) : st.grid ≠ invalid_sudoku := by
  intro h
  have hnz : cellVal st.grid 0 0 ≠ 0 := by
    intro h0
    have hmem := inv.emptyFull 0 (by omega) 0 (by omega) h0
    rw [hemp] at hmem
    exact List.not_mem_nil _ hmem
  have hd : cellVal st.grid 0 0 ∈ digits := by
    rcases inv.vals 0 (by omega) 0 (by omega) with h0 | hd
    · exact absurd h0 hnz
    · exact hd
  rw [h] at hd
  rw [invalid_cellVal 0 (by omega) 0 (by omega)] at hd
  have := mem_digits.mp hd
  omega

lemma solve_sudoku_eq_scan_none {input : Grid}
    (hscan : init_scan allCells (mkInit input) = none) :
    solve_sudoku input = (invalid_sudoku, input) := by
  simp [solve_sudoku, hscan]

lemma solve_sudoku_eq_some {input : Grid} {st g stf : SolverState}
    (hscan : init_scan allCells (mkInit input) = some st)
    (hdfs : depth_first_search st = (some g, stf)) :
    solve_sudoku input = (g.grid, stf.grid) := by
  simp only [solve_sudoku, hscan]
  rw [hdfs]

lemma solve_sudoku_eq_fail {input : Grid} {st stf : SolverState}
    (hscan : init_scan allCells (mkInit input) = some st)
    (hdfs : depth_first_search st = (none, stf)) :
    solve_sudoku input = (invalid_sudoku, stf.grid) := by
  simp only [solve_sudoku, hscan]
  rw [hdfs]

/-! ## The `sudoku_approach1.py` variant

`SudokuState` there keys its `defaultdict(set)` maps by the raw arguments:
`is_unsolvable` (lines 52-61) evaluates, left to right under Python's
short-circuit `or`, `val in col_to_seen_vals[col]`, then
`val in row_to_seen_vals[row]`, then `val in sub_grid[_grid_key(row, col)]`,
with no bounds check; a key never inserted behaves as the empty set, exactly
as `defaultdict` does.  `_grid_key` computes `row // self.n_sq_root` where
`n_sq_root = math.sqrt(9) = 3.0` is a float: CPython first converts the int
operand to a double — raising `OverflowError` when the value rounds outside
the double range — and only then floor-divides.  The conversion (round to
nearest, ties to even, overflow included) is modelled exactly by
`float_of_int`; the subsequent floor division of the resulting integral
double `F` by `3.0` is modelled as the exact floor `Int.fdiv F 3`, which is
bit-for-bit CPython's result whenever `|F| ≤ 2^53`: the quotient then has
magnitude below `2^52`, where consecutive doubles are at most `1/2` apart,
so the correctly rounded quotient keeps the exact floor.  The claims below
are settled only at arguments of magnitude at most `2^53` or on the
overflow path, where this model is exact. -/

namespace Approach1

/-- Floor of the base-2 logarithm, by structural recursion on a fuel
counter; `fuel = 1100` is exact for every magnitude below `2^1100`, and any
larger magnitude overflows the double range regardless of the computed
exponent (the final `2^1024` test in `float_of_int` still fires, because
the rounded value is at least the input minus one ulp). -/
def log2floor : Nat → Nat → Nat
  | 0, _ => 0
  | fuel + 1, n => if n ≤ 1 then 0 else log2floor fuel (n / 2) + 1

/-- Models CPython's int-to-double conversion: exact up to `2^53`, otherwise
round to nearest with ties to even at the ulp `2^(log2 |n| - 52)`, and
`none` (the raised `OverflowError`) exactly when the rounded magnitude
reaches `2^1024`.  The returned integer is the double's exact value (every
finite double of magnitude at least `2^53` is an integer). -/
def float_of_int (n : Int) : Option Int :=
  if n.natAbs ≤ 2 ^ 53 then some n
  else
    let e := log2floor 1100 n.natAbs - 52
    let q := n.natAbs / 2 ^ e
    let rem := n.natAbs % 2 ^ e
    let q' := if 2 * rem < 2 ^ e then q
      else if 2 ^ e < 2 * rem then q + 1
      else if q % 2 = 0 then q else q + 1
    let m := q' * 2 ^ e
    if 2 ^ 1024 ≤ m then none else some (n.sign * m)

/-- Models `n // 3.0` as evaluated inside `_grid_key` (lines 99-106):
convert `n` to a double (possibly raising `OverflowError`, modelled by
`none`), then floor-divide the integral double by `3.0`. -/
def pyFloorDiv3 (n : Int) : Option Int :=
  (float_of_int n).map fun F => Int.fdiv F 3

/-- Models `_grid_key` (lines 99-106): the tuple
`(row // n_sq_root, col // n_sq_root)`; the components are evaluated left to
right, so an overflow on `row` raises before `col` is converted. -/
def grid_key? (row col : Int) : Option (Int × Int) :=
  match pyFloorDiv3 row with
  | none => none
  | some a =>
    match pyFloorDiv3 col with
    | none => none
    | some b => some (a, b)

/-- The fields of `SudokuState.__init__` (lines 8-29). -/
structure SudokuState where
  board : Grid
  row_to_seen_vals : List (Int × Int)
  col_to_seen_vals : List (Int × Int)
  sub_grid : List ((Int × Int) × Int)
  empty_cells : List (Int × Int)
deriving DecidableEq

/-- Reads `board[row][col]` for the in-range coordinates used by construction. -/
def boardVal (b : Grid) (r c : Int) : Int := cellVal b r.toNat c.toNat

/-- Models `is_unsolvable` (lines 52-61) with Python's left-to-right
short-circuit `or`: the column lookup, then the row lookup, then the
sub-grid lookup, whose key computation `_grid_key(row, col)` can raise
(`none`). -/
def is_unsolvable? (st : SudokuState) (row col val : Int) : Option Bool :=
  if (col, val) ∈ st.col_to_seen_vals then some true
  else if (row, val) ∈ st.row_to_seen_vals then some true
  else
    match grid_key? row col with
    | none => none
    | some k => some (decide ((k, val) ∈ st.sub_grid))

/-- The row-major cells scanned by `_initialize_state` (lines 40-41). -/
def a1Cells : List (Int × Int) :=
  (List.range 9).flatMap fun r => (List.range 9).map fun c => ((r : Int), (c : Int))

/-- The state as first constructed (lines 25-27): empty maps and stack. -/
def mk_state (b : Grid) : SudokuState := ⟨b, [], [], [], []⟩

/-- Models `_initialize_state` (lines 31-50): scan the board; a zero cell
joins `empty_cells`, a non-zero cell is checked with `is_unsolvable` and
then recorded in the three maps (line 50 recomputes `_grid_key`).  `none`
models any raised exception: the `ValueError` on a duplicate, or an
`OverflowError` escaping `_grid_key` — the latter unreachable for the
in-range coordinates actually scanned. -/
def init_state : List (Int × Int) → SudokuState → Option SudokuState
  | [], st => some st
  | (row, col) :: rest, st =>
    let val := boardVal st.board row col
    if val = 0 then
      init_state rest { st with empty_cells := st.empty_cells ++ [(row, col)] }
    else
      match is_unsolvable? st row col val with
      | none => none
      | some true => none
      | some false =>
        match grid_key? row col with
        | none => none
        | some k =>
          init_state rest { st with
            col_to_seen_vals := sadd st.col_to_seen_vals (col, val)
            row_to_seen_vals := sadd st.row_to_seen_vals (row, val)
            sub_grid := sadd st.sub_grid (k, val) }

/-- All keys ever inserted into the three maps: rows and columns in
`[0, 8]`, box keys in `[0, 2] x [0, 2]`. -/
def KeysOk (st : SudokuState) : Prop :=
  (∀ p ∈ st.row_to_seen_vals, 0 ≤ p.1 ∧ p.1 ≤ 8) ∧
    (∀ p ∈ st.col_to_seen_vals, 0 ≤ p.1 ∧ p.1 ≤ 8) ∧
    ∀ p ∈ st.sub_grid, 0 ≤ p.1.1 ∧ p.1.1 ≤ 2 ∧ 0 ≤ p.1.2 ∧ p.1.2 ≤ 2

lemma fdiv3_bounds {r : Int} (h0 : 0 ≤ r) (h8 : r ≤ 8) :
    0 ≤ Int.fdiv r 3 ∧ Int.fdiv r 3 ≤ 2 := by
  rw [Int.fdiv_eq_ediv _ (by decide)]
  omega

lemma fdiv3_neg {r : Int} (h : r < 0) : Int.fdiv r 3 < 0 := by
  rw [Int.fdiv_eq_ediv _ (by decide)]
  omega

lemma fdiv3_big {r : Int} (h : 8 < r) : 2 < Int.fdiv r 3 := by
  rw [Int.fdiv_eq_ediv _ (by decide)]
  omega

lemma a1Cells_bounds : ∀ rc ∈ a1Cells, 0 ≤ rc.1 ∧ rc.1 ≤ 8 ∧ 0 ≤ rc.2 ∧ rc.2 ≤ 8 := by
  decide

/-- On integers of magnitude at most `2^53`, the int-to-double conversion is
exact and cannot raise, so `// 3.0` coincides with exact floor division. -/
lemma pyFloorDiv3_small {n : Int} (h : n.natAbs ≤ 2 ^ 53) :
    pyFloorDiv3 n = some (Int.fdiv n 3) := by
  unfold pyFloorDiv3 float_of_int
  rw [if_pos h]
  rfl

/-- On coordinate pairs of magnitude at most `2^53`, `_grid_key` computes
the exact floor-division pair without raising. -/
lemma grid_key?_small {row col : Int} (h1 : row.natAbs ≤ 2 ^ 53)
    (h2 : col.natAbs ≤ 2 ^ 53) :
    grid_key? row col = some (Int.fdiv row 3, Int.fdiv col 3) := by
  unfold grid_key?
  rw [pyFloorDiv3_small h1, pyFloorDiv3_small h2]

lemma natAbs_le_pow53 {n : Int} (h0 : 0 ≤ n) (h8 : n ≤ 8) : n.natAbs ≤ 2 ^ 53 := by
  have hp : (2 : Nat) ^ 53 = 9007199254740992 := by norm_num
  omega

lemma log2floor_pow : ∀ (k fuel : Nat), k < fuel → log2floor fuel (2 ^ k) = k := by
  intro k
  induction k with
  | zero =>
    intro fuel hf
    cases fuel with
    | zero => omega
    | succ f => simp [log2floor]
  | succ k ih =>
    intro fuel hf
    cases fuel with
    | zero => omega
    | succ f =>
      have h2 : ¬ (2 ^ (k + 1) ≤ 1) := by
        have h3 : 2 ^ 1 ≤ 2 ^ (k + 1) := Nat.pow_le_pow_right (by omega) (by omega)
        simp at h3
        omega
      have hdiv : 2 ^ (k + 1) / 2 = 2 ^ k := by
        rw [pow_succ]
        exact Nat.mul_div_cancel _ (by omega)
      rw [show log2floor (f + 1) (2 ^ (k + 1)) =
          if 2 ^ (k + 1) ≤ 1 then 0 else log2floor f (2 ^ (k + 1) / 2) + 1 from rfl,
        if_neg h2, hdiv, ih f (by omega)]

lemma natAbs_pow1024 : ((2 : Int) ^ 1024).natAbs = 2 ^ 1024 := by
  rw [Int.natAbs_pow]
  rfl

/-- On `2^1024` the conversion overflows: the argument sits exactly at the
first magnitude past the largest finite double, the significand rounds to
`2^52` at ulp `2^972`, and the rounded magnitude `2^1024` trips the range
test, so CPython raises `OverflowError`. -/
lemma float_of_int_pow1024 : float_of_int (2 ^ 1024) = none := by
  have hlt : (2 : Nat) ^ 53 < 2 ^ 1024 := Nat.pow_lt_pow_right (by omega) (by omega)
  have hgt : ¬ ((2 : Int) ^ 1024).natAbs ≤ 2 ^ 53 := by
    rw [natAbs_pow1024]
    omega
  have hlog : log2floor 1100 ((2 : Int) ^ 1024).natAbs - 52 = 972 := by
    rw [natAbs_pow1024, log2floor_pow 1024 1100 (by omega)]
  have hq : ((2 : Int) ^ 1024).natAbs / 2 ^ 972 = 2 ^ 52 := by
    rw [natAbs_pow1024, Nat.pow_div (by omega) (by omega)]
  have hrem : ((2 : Int) ^ 1024).natAbs % 2 ^ 972 = 0 := by
    rw [natAbs_pow1024]
    rw [show (2 : Nat) ^ 1024 = 2 ^ 52 * 2 ^ 972 from by rw [← pow_add]]
    exact Nat.mul_mod_left _ _
  have hpos : 0 < (2 : Nat) ^ 972 := by positivity
  have hfin : (2 : Nat) ^ 1024 ≤ 2 ^ 52 * 2 ^ 972 := by
    rw [← pow_add]
  unfold float_of_int
  rw [if_neg hgt]
  simp only [hlog, hq, hrem, mul_zero]
  rw [if_pos hpos, if_pos hfin]

lemma pyFloorDiv3_pow1024 : pyFloorDiv3 (2 ^ 1024) = none := by
  unfold pyFloorDiv3
  rw [float_of_int_pow1024]
  rfl

lemma grid_key?_overflow {row : Int} (h : pyFloorDiv3 row = none) (col : Int) :
    grid_key? row col = none := by
  unfold grid_key?
  rw [h]

lemma eight_lt_pow1024 : (8 : Int) < 2 ^ 1024 := by
  have h1 : (2 : Int) ^ 4 ≤ 2 ^ 1024 := pow_le_pow_right₀ (by omega) (by omega)
  have h2 : (2 : Int) ^ 4 = 16 := by norm_num
  omega

/-- Construction only ever inserts in-range keys. -/
lemma keysOk_scan : ∀ todo st,
    (∀ rc ∈ todo, 0 ≤ rc.1 ∧ rc.1 ≤ 8 ∧ 0 ≤ rc.2 ∧ rc.2 ≤ 8) → KeysOk st →
    ∀ st', init_state todo st = some st' → KeysOk st' := by
  intro todo
  induction todo with
  | nil =>
    intro st _ hok st' heq
    simp only [init_state, Option.some.injEq] at heq
    exact heq ▸ hok
  | cons rc rest ih =>
    obtain ⟨row, col⟩ := rc
    intro st hcells hok st' heq
    have hrc := hcells (row, col) (List.mem_cons_self _ _)
    have hrest : ∀ x ∈ rest, 0 ≤ x.1 ∧ x.1 ≤ 8 ∧ 0 ≤ x.2 ∧ x.2 ≤ 8 :=
      fun x hx => hcells x (List.mem_cons_of_mem _ hx)
    by_cases h0 : boardVal st.board row col = 0
    · rw [show init_state ((row, col) :: rest) st =
          init_state rest { st with empty_cells := st.empty_cells ++ [(row, col)] } from
        by simp [init_state, h0]] at heq
      exact ih { st with empty_cells := st.empty_cells ++ [(row, col)] } hrest hok st' heq
    · have hgk : grid_key? row col = some (Int.fdiv row 3, Int.fdiv col 3) :=
        grid_key?_small (natAbs_le_pow53 hrc.1 hrc.2.1)
          (natAbs_le_pow53 hrc.2.2.1 hrc.2.2.2)
      cases his : is_unsolvable? st row col (boardVal st.board row col) with
      | none =>
        rw [show init_state ((row, col) :: rest) st = none from
          by simp [init_state, h0, his]] at heq
        exact Option.noConfusion heq
      | some bv =>
        cases bv with
        | true =>
          rw [show init_state ((row, col) :: rest) st = none from
            by simp [init_state, h0, his]] at heq
          exact Option.noConfusion heq
        | false =>
          rw [show init_state ((row, col) :: rest) st =
              init_state rest { st with
                col_to_seen_vals := sadd st.col_to_seen_vals (col, boardVal st.board row col)
                row_to_seen_vals := sadd st.row_to_seen_vals (row, boardVal st.board row col)
                sub_grid := sadd st.sub_grid
                  ((Int.fdiv row 3, Int.fdiv col 3), boardVal st.board row col) } from
            by simp [init_state, h0, his, hgk]] at heq
          refine ih _ hrest ⟨?_, ?_, ?_⟩ st' heq
          · intro p hp
            rcases mem_sadd.mp hp with rfl | hp'
            · exact ⟨hrc.1, hrc.2.1⟩
            · exact hok.1 _ hp'
          · intro p hp
            rcases mem_sadd.mp hp with rfl | hp'
            · exact ⟨hrc.2.2.1, hrc.2.2.2⟩
            · exact hok.2.1 _ hp'
          · intro p hp
            rcases mem_sadd.mp hp with rfl | hp'
            · obtain ⟨hb1, hb2⟩ := fdiv3_bounds hrc.1 hrc.2.1
              obtain ⟨hb3, hb4⟩ := fdiv3_bounds hrc.2.2.1 hrc.2.2.2
              exact ⟨hb1, hb2, hb3, hb4⟩
            · exact hok.2.2 _ hp'

end Approach1

/-! ## I2 preservation from I2 alone (for the invariant claim) -/

lemma I2_place {st : SolverState} {row col : Nat} {d : Int}
    (hshape : gridShape st.grid) (h2 : I2 st)
    (hlast : st.empty_cells.getLast? = some (row, col))
    (hd0 : d ≠ 0) : I2 (place st row col d) := by
  obtain ⟨hnodup, hmem, hfull⟩ := h2
  obtain ⟨hr9, hc9, hpiv⟩ := hmem _ (List.mem_of_getLast?_eq_some hlast)
  have cvs : cellVal (setCell st.grid row col d) row col = d :=
    cellVal_setCell_self hshape hr9 hc9
  have cvn : ∀ {r' c' : Nat}, (r', c') ≠ (row, col) →
      cellVal (setCell st.grid row col d) r' c' = cellVal st.grid r' c' :=
    fun h => cellVal_setCell_ne h
  have hNodup : st.empty_cells.dropLast.Nodup :=
    List.Nodup.sublist (List.dropLast_sublist _) hnodup
  have hMem : ∀ rc ∈ st.empty_cells.dropLast,
      rc.1 < 9 ∧ rc.2 < 9 ∧ cellVal (setCell st.grid row col d) rc.1 rc.2 = 0 := by
    intro rc hrc
    obtain ⟨a, b⟩ := rc
    obtain ⟨hmem', hne⟩ := (mem_dropLast_iff hnodup hlast).mp hrc
    obtain ⟨h1a, h2a, h3a⟩ := hmem _ hmem'
    exact ⟨h1a, h2a, by rw [cvn hne]; exact h3a⟩
  have hFull : ∀ r < 9, ∀ c < 9, cellVal (setCell st.grid row col d) r c = 0 →
      (r, c) ∈ st.empty_cells.dropLast := by
    intro r hr c hc hval
    have hne : (r, c) ≠ (row, col) := by
      intro hh
      rw [Prod.mk.injEq] at hh
      obtain ⟨rfl, rfl⟩ := hh
      rw [cvs] at hval
      exact hd0 hval
    rw [cvn hne] at hval
    exact (mem_dropLast_iff hnodup hlast).mpr ⟨hfull r hr c hc hval, hne⟩
  exact ⟨hNodup, hMem, hFull⟩

lemma I2_undo_place {st : SolverState} {row col : Nat} {d : Int}
    (h2 : I2 st) (hlast : st.empty_cells.getLast? = some (row, col)) :
    I2 (undo (place st row col d) row col d) := by
  obtain ⟨hr9, hc9, hpiv⟩ := h2.2.1 _ (List.mem_of_getLast?_eq_some hlast)
  have hg : (undo (place st row col d) row col d).grid = st.grid := by
    show setCell (setCell st.grid row col d) row col 0 = st.grid
    rw [setCell_setCell]
    exact setCell_cancel hpiv
  have he : (undo (place st row col d) row col d).empty_cells = st.empty_cells := by
    show st.empty_cells.dropLast ++ [(row, col)] = st.empty_cells
    exact dropLast_append_last hlast
  unfold I2
  rw [hg, he]
  exact h2

/-! ## Concrete grids used by the witnesses and counterexamples -/

/-- A fully and validly filled grid (scenario D of the spec). -/
def gComplete : Grid :=
  [[1, 2, 3, 4, 5, 6, 7, 8, 9],
   [4, 5, 6, 7, 8, 9, 1, 2, 3],
   [7, 8, 9, 1, 2, 3, 4, 5, 6],
   [2, 3, 4, 5, 6, 7, 8, 9, 1],
   [5, 6, 7, 8, 9, 1, 2, 3, 4],
   [8, 9, 1, 2, 3, 4, 5, 6, 7],
   [3, 4, 5, 6, 7, 8, 9, 1, 2],
   [6, 7, 8, 9, 1, 2, 3, 4, 5],
   [9, 1, 2, 3, 4, 5, 6, 7, 8]]

/-- Grid `gComplete` with one cell emptied (scenario C of the spec). -/
def gOneEmpty : Grid :=
  [[0, 2, 3, 4, 5, 6, 7, 8, 9],
   [4, 5, 6, 7, 8, 9, 1, 2, 3],
   [7, 8, 9, 1, 2, 3, 4, 5, 6],
   [2, 3, 4, 5, 6, 7, 8, 9, 1],
   [5, 6, 7, 8, 9, 1, 2, 3, 4],
   [8, 9, 1, 2, 3, 4, 5, 6, 7],
   [3, 4, 5, 6, 7, 8, 9, 1, 2],
   [6, 7, 8, 9, 1, 2, 3, 4, 5],
   [9, 1, 2, 3, 4, 5, 6, 7, 8]]

/-- A grid with two `5`s in row 0 (scenario B of the spec). -/
def gDup : Grid := [5, 5, 0, 0, 0, 0, 0, 0, 0] :: List.replicate 8 (List.replicate 9 0)

/-- The all-zero grid. -/
def gZero : Grid := List.replicate 9 (List.replicate 9 0)

/-- A grid whose row 0 has a single empty cell and whose other rows are
fully empty. -/
def g5 : Grid := [0, 2, 3, 4, 5, 6, 7, 8, 9] :: List.replicate 8 (List.replicate 9 0)

/-- The solver state constructed from `gZero`. -/
def stZ : SolverState := (init_scan allCells (mkInit gZero)).getD (mkInit gZero)

/-- The solver state constructed from `g5`. -/
def st5 : SolverState := (init_scan allCells (mkInit g5)).getD (mkInit g5)

/-- The solver state constructed from `gComplete`. -/
def stC : SolverState := (init_scan allCells (mkInit gComplete)).getD (mkInit gComplete)

/-- The `sudoku_approach1.py` state constructed from `g5`. -/
def stA1 : Approach1.SudokuState :=
  (Approach1.init_state Approach1.a1Cells (Approach1.mk_state g5)).getD
    (Approach1.mk_state g5)

/-- The number of tracked empty cells lying in row `r`. -/
def rowEmptyCount (st : SolverState) (r : Nat) : Nat :=
  (st.empty_cells.filter fun rc => decide (rc.1 = r)).length

instance (g : Grid) : Decidable (gridShape g) := by
  unfold gridShape
  infer_instance

instance (g : Grid) : Decidable (GridWF g) := by
  unfold GridWF
  infer_instance

instance (a b : Grid) : Decidable (AgreesG a b) := by
  unfold AgreesG
  infer_instance

instance (g : Grid) : Decidable (ValidSolvedGrid g) := by
  unfold ValidSolvedGrid
  infer_instance

instance (g : Grid) : Decidable (HasDuplicateClue g) := by
  unfold HasDuplicateClue
  infer_instance

instance (st : SolverState) : Decidable (I2 st) := by
  unfold I2
  infer_instance

/-! ## The claims -/

/-- C1: soundness of the solver.  For every 9x9 input grid of integers in
`[0, 9]`, if `sudoku_solver` returns a grid that is not uniformly `-1`, then
in the returned grid every row, every column and every 3x3 box contains each
digit 1-9 exactly once, and every cell that was non-zero in the input holds
its original input value in the output. -/
theorem C1_solver_sound (input : Grid) (hwf : GridWF input)
    (hne : sudoku_solver input ≠ invalid_sudoku) :
    ValidSolvedGrid (sudoku_solver input) ∧ AgreesG input (sudoku_solver input) := by
  cases hscan : init_scan allCells (mkInit input) with
  | none =>
    exfalso
    apply hne
    show (solve_sudoku input).1 = _
    rw [solve_sudoku_eq_scan_none hscan]
  | some st =>
    obtain ⟨inv, hgrid, hlen⟩ := scan_success hwf hscan
    rcases (dfs_master st.empty_cells.length st inv (le_refl _)).1 with
      ⟨g, hout, invg, hge, hpres⟩ | hout
    · have hdfs : depth_first_search st = (some g, g) := hout
      have hsol : sudoku_solver input = g.grid := by
        show (solve_sudoku input).1 = _
        rw [solve_sudoku_eq_some hscan hdfs]
      rw [hsol]
      refine ⟨final_valid invg hge, ?_⟩
      have hp : AgreesG st.grid g.grid := hpres
      rw [hgrid] at hp
      exact hp
    · exfalso
      apply hne
      have hdfs : depth_first_search st = (none, st) := hout
      show (solve_sudoku input).1 = _
      rw [solve_sudoku_eq_fail hscan hdfs]

theorem C1_solver_sound_witness :
    ValidSolvedGrid (sudoku_solver gComplete) ∧
      AgreesG gComplete (sudoku_solver gComplete) :=
  C1_solver_sound gComplete (by decide) (by decide)

/-- C2: completeness of the solver.  For every 9x9 input grid of integers
in `[0, 9]` that admits a valid Sudoku completion and has no duplicate clue,
`sudoku_solver` returns a valid completion of the grid and never the all
`-1` sentinel. -/
theorem C2_solver_complete (input S : Grid) (hwf : GridWF input)
    (hS : ValidSolvedGrid S) (hag : AgreesG input S)
    (hnodup : ¬ HasDuplicateClue input) :
    sudoku_solver input ≠ invalid_sudoku ∧ ValidSolvedGrid (sudoku_solver input) ∧
      AgreesG input (sudoku_solver input) := by
  cases hscan : init_scan allCells (mkInit input) with
  | none => exact absurd (scan_none_dup hscan) hnodup
  | some st =>
    obtain ⟨inv, hgrid, hlen⟩ := scan_success hwf hscan
    have hagst : AgreesG st.grid S := by
      rw [hgrid]
      exact hag
    obtain ⟨g0, hg0⟩ := dfs_complete st.empty_cells.length st S inv (le_refl _) hS hagst
    rcases (dfs_master st.empty_cells.length st inv (le_refl _)).1 with
      ⟨g, hout, invg, hge, hpres⟩ | hout
    · have hdfs : depth_first_search st = (some g, g) := hout
      have hsol : sudoku_solver input = g.grid := by
        show (solve_sudoku input).1 = _
        rw [solve_sudoku_eq_some hscan hdfs]
      rw [hsol]
      refine ⟨valid_grid_ne_invalid invg hge, final_valid invg hge, ?_⟩
      have hp : AgreesG st.grid g.grid := hpres
      rw [hgrid] at hp
      exact hp
    · rw [hout] at hg0
      exact Option.noConfusion (congrArg Prod.fst hg0)

theorem C2_solver_complete_witness :
    sudoku_solver gOneEmpty ≠ invalid_sudoku ∧
      ValidSolvedGrid (sudoku_solver gOneEmpty) ∧
        AgreesG gOneEmpty (sudoku_solver gOneEmpty) :=
  C2_solver_complete gOneEmpty gComplete (by decide) (by decide) (by decide) (by decide)

/-- C3: rejection of malformed input.  For every 9x9 input grid of integers
in `[0, 9]` in which some non-zero value appears twice in the same row,
column or 3x3 box, `sudoku_solver` returns the grid whose every entry is
`-1`. -/
theorem C3_reject_duplicate (input : Grid) (_hwf : GridWF input)
    (hdup : HasDuplicateClue input) : sudoku_solver input = invalid_sudoku := by
  cases hscan : init_scan allCells (mkInit input) with
  | none =>
    show (solve_sudoku input).1 = _
    rw [solve_sudoku_eq_scan_none hscan]
  | some st => exact absurd hdup (scan_some_nodup hscan)

theorem C3_reject_duplicate_witness : sudoku_solver gDup = invalid_sudoku :=
  C3_reject_duplicate gDup (by decide) (by decide)

/-- C4 (counterexample): the claim as stated is false.  On the state built
from the all-zero grid, cell `(0, 0)` is empty and digit 1 is legal there,
yet `place` followed by `undo` at `(0, 0)` does not restore the state:
`place` pops the last tracked empty cell, which is `(8, 8)`, not `(0, 0)`. -/
theorem C4_counterexample :
    init_scan allCells (mkInit gZero) = some stZ ∧
      cellVal stZ.grid 0 0 = 0 ∧ digit_is_legal stZ 0 0 1 = true ∧
        (0, 0) ∈ stZ.empty_cells ∧ undo (place stZ 0 0 1) 0 0 1 ≠ stZ := by
  refine ⟨rfl, ?_, ?_, ?_, ?_⟩ <;> decide

/-- C4 (amended): place/undo round-trip.  For every state and every legal
`(row, col, digit)` whose cell is empty and is the one on top of the
empty-cell stack (the cell the search always chooses), `place` followed by
`undo` with the same arguments restores `row_to_seen_vals`,
`col_to_seen_vals`, `grid_to_cells`, `empty_cells` and the grid exactly. -/
theorem C4_place_undo (st : SolverState) (row col : Nat) (d : Int)
    (hlast : st.empty_cells.getLast? = some (row, col))
    (hcell : cellVal st.grid row col = 0)
    (hleg : digit_is_legal st row col d = true) :
    undo (place st row col d) row col d = st :=
  undo_place hlast hcell hleg

theorem C4_place_undo_witness : undo (place stZ 8 8 1) 8 8 1 = stZ :=
  C4_place_undo stZ 8 8 1 (by decide) (by decide) (by decide)

/-- C5 (counterexample): the claim as stated is false.  On the state built
from `g5`, row 0 holds exactly one empty cell, yet the chosen cell (the
last element of `empty_cells`, namely `(8, 8)`) lies in a row holding nine
empty cells — not a row with the fewest. -/
theorem C5_counterexample :
    init_scan allCells (mkInit g5) = some st5 ∧
      0 < rowEmptyCount st5 0 ∧
        rowEmptyCount st5 0 < rowEmptyCount st5 (choose_cell st5 (by decide)).1 := by
  refine ⟨rfl, ?_, ?_⟩ <;> decide

/-- C5 (amended): on every state with at least one empty cell, `choose_cell`
returns the most recently tracked empty cell (the last element of
`empty_cells`) in constant time without rescanning the grid; under invariant
I2 it is a genuinely empty cell of the grid.  It is not guaranteed to lie in
a row holding the fewest empty cells. -/
theorem C5_choose_cell (st : SolverState) (h : st.empty_cells ≠ []) :
    choose_cell st h ∈ st.empty_cells ∧
      (I2 st → cellVal st.grid (choose_cell st h).1 (choose_cell st h).2 = 0) := by
  have hmem : choose_cell st h ∈ st.empty_cells := List.getLast_mem h
  exact ⟨hmem, fun h2 => (h2.2.1 _ hmem).2.2⟩

theorem C5_choose_cell_witness : choose_cell st5 (by decide) ∈ st5.empty_cells :=
  (C5_choose_cell st5 (by decide)).1

/-- C6: the legality test.  For every state and `row, col` in `0..8` and
digit in `1..9`, `digit_is_legal` returns true iff the digit is absent from
the row's used-set, the column's used-set, and the used-set of the box
`(row / 3, col / 3)`. -/
theorem C6_is_legal (st : SolverState) (row col : Nat) (d : Int)
    (_hrow : row < 9) (_hcol : col < 9) (_hd1 : 1 ≤ d) (_hd9 : d ≤ 9) :
    (digit_is_legal st row col d = true ↔
      ((row, d) ∉ st.row_to_seen_vals ∧ (col, d) ∉ st.col_to_seen_vals ∧
        ((row / 3, col / 3), d) ∉ st.grid_to_cells)) := by
  simpa [sub_grid_no] using @digit_is_legal_iff st row col d

theorem C6_is_legal_witness :
    (digit_is_legal stZ 0 0 1 = true ↔
      ((0, 1) ∉ stZ.row_to_seen_vals ∧ (0, 1) ∉ stZ.col_to_seen_vals ∧
        ((0 / 3, 0 / 3), 1) ∉ stZ.grid_to_cells)) :=
  C6_is_legal stZ 0 0 1 (by decide) (by decide) (by decide) (by decide)

/-- C7: invariant I2.  After construction from any valid input grid
`empty_cells` contains exactly the cells whose grid value is 0, each once;
and every `place` and every `undo` performed by the search (at the cell on
top of the empty-cell stack, with a digit in `1..9`) preserves this. -/
theorem C7_empty_cells_invariant :
    (∀ (input : Grid) (st : SolverState), GridWF input →
        init_scan allCells (mkInit input) = some st → I2 st) ∧
      (∀ (st : SolverState) (row col : Nat) (d : Int), gridShape st.grid → I2 st →
        st.empty_cells.getLast? = some (row, col) → 1 ≤ d → d ≤ 9 →
        I2 (place st row col d)) ∧
      ∀ (st : SolverState) (row col : Nat) (d : Int), gridShape st.grid → I2 st →
        st.empty_cells.getLast? = some (row, col) → 1 ≤ d → d ≤ 9 →
        I2 (undo (place st row col d) row col d) := by
  refine ⟨?_, ?_, ?_⟩
  · intro input st hwf hscan
    obtain ⟨inv, -, -⟩ := scan_success hwf hscan
    exact ⟨inv.emptyNodup, inv.emptyMem, inv.emptyFull⟩
  · intro st row col d hshape h2 hlast hd1 hd9
    exact I2_place hshape h2 hlast (by omega)
  · intro st row col d hshape h2 hlast hd1 hd9
    exact I2_undo_place h2 hlast

theorem C7_empty_cells_invariant_witness :
    I2 stZ ∧ I2 (place stZ 8 8 1) ∧ I2 (undo (place stZ 8 8 1) 8 8 1) := by
  have h1 : I2 stZ := C7_empty_cells_invariant.1 gZero stZ (by decide) rfl
  exact ⟨h1,
    C7_empty_cells_invariant.2.1 stZ 8 8 1 (by decide) h1 (by decide) (by decide) (by decide),
    C7_empty_cells_invariant.2.2 stZ 8 8 1 (by decide) h1 (by decide) (by decide) (by decide)⟩

/-- C8: termination and depth bound.  The search is a total function (it is
defined by structural recursion on the depth budget), the state built from
any 9x9 input tracks at most 81 empty cells, and a depth budget equal to
the number of empty cells already computes the entry point's result: any
larger budget changes nothing, i.e. the recursion depth never exceeds the
number of empty cells. -/
theorem C8_termination_depth (input : Grid) (st : SolverState) (hwf : GridWF input)
    (hscan : init_scan allCells (mkInit input) = some st) :
    st.empty_cells.length ≤ 81 ∧
      ∀ fuel, st.empty_cells.length ≤ fuel → dfsF fuel st = depth_first_search st := by
  obtain ⟨inv, hgrid, hlen⟩ := scan_success hwf hscan
  exact ⟨hlen, fun fuel hf => dfsF_ge_len inv hf⟩

theorem C8_termination_depth_witness :
    stC.empty_cells.length ≤ 81 ∧
      ∀ fuel, stC.empty_cells.length ≤ fuel → dfsF fuel stC = depth_first_search stC :=
  C8_termination_depth gComplete stC (by decide) rfl

/-- C9: atomicity on failure.  Whenever the solver returns the all `-1`
sentinel — because a duplicate clue was detected during construction or
because the search was exhausted — the input grid (the second component of
`solve_sudoku`, modelling the caller's array after the in-place mutations)
holds exactly its original values: every tentative placement has been
undone. -/
theorem C9_failure_atomic (input : Grid) (hwf : GridWF input)
    (hsent : (solve_sudoku input).1 = invalid_sudoku) :
    (solve_sudoku input).2 = input := by
  cases hscan : init_scan allCells (mkInit input) with
  | none => rw [solve_sudoku_eq_scan_none hscan]
  | some st =>
    obtain ⟨inv, hgrid, hlen⟩ := scan_success hwf hscan
    rcases (dfs_master st.empty_cells.length st inv (le_refl _)).1 with
      ⟨g, hout, invg, hge, hpres⟩ | hout
    · have hdfs : depth_first_search st = (some g, g) := hout
      rw [solve_sudoku_eq_some hscan hdfs] at hsent
      exact absurd hsent (valid_grid_ne_invalid invg hge)
    · have hdfs : depth_first_search st = (none, st) := hout
      rw [solve_sudoku_eq_fail hscan hdfs]
      exact hgrid

theorem C9_failure_atomic_witness : (solve_sudoku gDup).2 = gDup :=
  C9_failure_atomic gDup (by decide) (by decide)

/-- C10 (counterexample): the claim as frozen is false — the legality test
of `sudoku_approach1.py` can raise.  At `row = col = 2^1024` (outside
`0..8`), the first two `defaultdict` lookups of `is_unsolvable` find
nothing, so the check goes on to evaluate `_grid_key(row, col)`, whose
`row // 3.0` must first convert `2^1024` to a double; CPython raises
`OverflowError` there (`is_unsolvable? ... = none`) instead of reporting
the placement legal. -/
theorem C10_counterexample :
    (8 : Int) < 2 ^ 1024 ∧
      Approach1.init_state Approach1.a1Cells (Approach1.mk_state g5) = some stA1 ∧
      Approach1.is_unsolvable? stA1 (2 ^ 1024) (2 ^ 1024) 5 = none := by
  have hscan : Approach1.init_state Approach1.a1Cells (Approach1.mk_state g5) = some stA1 :=
    rfl
  have hok : Approach1.KeysOk stA1 :=
    Approach1.keysOk_scan _ _ Approach1.a1Cells_bounds
      ⟨fun p hp => absurd hp (List.not_mem_nil _),
        fun p hp => absurd hp (List.not_mem_nil _),
        fun p hp => absurd hp (List.not_mem_nil _)⟩ stA1 hscan
  have hbig : (8 : Int) < 2 ^ 1024 := Approach1.eight_lt_pow1024
  have hcnot : ((2 : Int) ^ 1024, (5 : Int)) ∉ stA1.col_to_seen_vals := by
    intro hmem
    have h8 := (hok.2.1 _ hmem).2
    omega
  have hrnot : ((2 : Int) ^ 1024, (5 : Int)) ∉ stA1.row_to_seen_vals := by
    intro hmem
    have h8 := (hok.1 _ hmem).2
    omega
  refine ⟨hbig, hscan, ?_⟩
  unfold Approach1.is_unsolvable?
  rw [if_neg hcnot, if_neg hrnot,
    Approach1.grid_key?_overflow Approach1.pyFloorDiv3_pow1024 (2 ^ 1024)]

/-- C10 (amended): totality of `sudoku_approach1.py`'s legality test on the
float-exact range.  `is_unsolvable` accepts arbitrary integer `row`, `col`,
`val` without bounds checking; for coordinates of magnitude at most `2^53`
(where the int-to-double conversion inside `_grid_key` is exact and cannot
raise) lying outside `0..8`, the `defaultdict`-backed used-sets are empty
at those keys, so the placement is reported as legal (`some false`) rather
than failing.  Beyond the double range the conversion raises
`OverflowError` instead, as the counterexample shows. -/
theorem C10_legality_total (b : Grid) (st : Approach1.SudokuState) (row col val : Int)
    (hscan : Approach1.init_state Approach1.a1Cells (Approach1.mk_state b) = some st)
    (hrowS : row.natAbs ≤ 2 ^ 53) (hcolS : col.natAbs ≤ 2 ^ 53)
    (hrow : row < 0 ∨ 8 < row) (hcol : col < 0 ∨ 8 < col) :
    Approach1.is_unsolvable? st row col val = some false ∧
      (∀ v, (row, v) ∉ st.row_to_seen_vals) ∧ ∀ v, (col, v) ∉ st.col_to_seen_vals := by
  have hok : Approach1.KeysOk st :=
    Approach1.keysOk_scan _ _ Approach1.a1Cells_bounds
      ⟨fun p hp => absurd hp (List.not_mem_nil _),
        fun p hp => absurd hp (List.not_mem_nil _),
        fun p hp => absurd hp (List.not_mem_nil _)⟩ st hscan
  have hr : ∀ v, (row, v) ∉ st.row_to_seen_vals := by
    intro v hmem
    obtain ⟨ha, hb⟩ := hok.1 _ hmem
    have ha' : (0 : Int) ≤ row := ha
    have hb' : row ≤ 8 := hb
    rcases hrow with h | h <;> omega
  have hc : ∀ v, (col, v) ∉ st.col_to_seen_vals := by
    intro v hmem
    obtain ⟨ha, hb⟩ := hok.2.1 _ hmem
    have ha' : (0 : Int) ≤ col := ha
    have hb' : col ≤ 8 := hb
    rcases hcol with h | h <;> omega
  have hbox : ((Int.fdiv row 3, Int.fdiv col 3), val) ∉ st.sub_grid := by
    intro hmem
    obtain ⟨h1, h2, h3, h4⟩ := hok.2.2 _ hmem
    have h1' : (0 : Int) ≤ Int.fdiv row 3 := h1
    have h2' : Int.fdiv row 3 ≤ 2 := h2
    rcases hrow with h | h
    · have := Approach1.fdiv3_neg h
      omega
    · have := Approach1.fdiv3_big h
      omega
  refine ⟨?_, hr, hc⟩
  unfold Approach1.is_unsolvable?
  rw [if_neg (hc val), if_neg (hr val), Approach1.grid_key?_small hrowS hcolS]
  simp [hbox]

theorem C10_legality_total_witness :
    Approach1.is_unsolvable? stA1 9 (-1) 5 = some false ∧
      (∀ v, ((9 : Int), v) ∉ stA1.row_to_seen_vals) ∧
        ∀ v, ((-1 : Int), v) ∉ stA1.col_to_seen_vals :=
  C10_legality_total g5 stA1 9 (-1) 5 rfl (by decide) (by decide) (by decide) (by decide)

end SudokuSolver
